import Mathlib

/-!
Verification development for the `forgetest` code-quality evaluation harness.

The Rust sources are shallowly embedded: machine integers (`u32`, `u64`,
`usize`) become `Nat`, `f64` score arithmetic becomes `ℚ` (all scores in the
program are ratios of small integers), and the `f64` log-space Pass@k
computation becomes `ℝ` with `Real.log` / `Real.exp`.  `Uuid` and
`DateTime<Utc>` values are opaque to every claim and become `String`.
Hash maps keyed by `(case_id, model)` become deduplicated association lists;
only membership and counts of their key sets are observable in the claims.
-/

namespace Forgetest

/-! ## Core data model (`crates/forgetest-core/src/model.rs`) -/

/-- Embeds `Language` from `model.rs`. -/
inductive Language where
  | rust
  | python
  | typeScript
  | go
deriving DecidableEq, Repr

/-- Embeds `Dependency` from `crates/forgetest-core/src/traits.rs`. -/
structure Dependency where
  name : String
  version : String
  features : List String
deriving DecidableEq, Repr

/-- Embeds `ContextFile` from `model.rs`. -/
structure ContextFile where
  path : String
  content : String
deriving DecidableEq, Repr

/-- Embeds `Expectations` from `model.rs`. -/
structure Expectations where
  should_compile : Bool
  should_pass_tests : Bool
  test_file : Option String
  expected_functions : List String
  expected_types : List String
  max_clippy_warnings : Option Nat
  custom_check : Option String
deriving DecidableEq, Repr

/-- Embeds `Expectations::default()` from `model.rs`. -/
def Expectations.default : Expectations :=
  { should_compile := true
    should_pass_tests := true
    test_file := none
    expected_functions := []
    expected_types := []
    max_clippy_warnings := none
    custom_check := none }

/-- Embeds `EvalCase` from `model.rs`.  The `dependencies` field is the case's
declared dependency list. -/
structure EvalCase where
  id : String
  name : String
  description : String
  prompt : String
  language : Option Language
  context : List ContextFile
  expectations : Expectations
  tags : List String
  dependencies : List Dependency
  timeout_secs : Option Nat
  max_tokens : Option Nat
deriving DecidableEq, Repr

/-! ## Stage results (`crates/forgetest-core/src/results.rs`)

The file `results.rs` is not under `src/`; the structures below are
reconstructed from their construction sites in `engine.rs`,
`report.rs` (tests), `benches/scoring.rs` and the spec's §3 data model,
which agree on every field. -/

/-- Embeds `Diagnostic` severity and message, per spec §3 (`results.rs` absent;
only the presence of diagnostics is observable in the claims). -/
structure Diagnostic where
  severity : String
  message : String
deriving DecidableEq, Repr

/-- Embeds `CompilationResult`: success flag, diagnostics, wall duration. -/
structure CompilationResult where
  success : Bool
  errors : List Diagnostic
  warnings : List Diagnostic
  duration_ms : Nat
deriving DecidableEq, Repr

/-- A per-failure record of `TestResult`. -/
structure TestFailure where
  name : String
  message : String
  stdout : String
deriving DecidableEq, Repr

/-- Embeds `TestResult`: counts and failures. -/
structure TestResult where
  passed : Nat
  failed : Nat
  ignored : Nat
  duration_ms : Nat
  failures : List TestFailure
deriving DecidableEq, Repr

/-- Embeds `ClippyResult`: lint warnings and their count. -/
structure ClippyResult where
  warnings : List Diagnostic
  warning_count : Nat
deriving DecidableEq, Repr

/-- Embeds `TimingInfo` as constructed in `engine.rs`. -/
structure TimingInfo where
  llm_request_ms : Nat
  compilation_ms : Nat
  test_execution_ms : Nat
  total_ms : Nat
deriving DecidableEq, Repr

/-- Embeds `TokenUsage`; the USD cost is a decimal, modelled as `ℚ`. -/
structure TokenUsage where
  prompt_tokens : Nat
  completion_tokens : Nat
  total_tokens : Nat
  estimated_cost_usd : ℚ
deriving DecidableEq, Repr

/-- Embeds `EvalResult` exactly as constructed in `EvalEngine::run`
(`engine.rs` lines 226-243). -/
structure EvalResult where
  case_id : String
  model : String
  provider : String
  generated_code : String
  compilation : CompilationResult
  test_execution : Option TestResult
  clippy : Option ClippyResult
  timing : TimingInfo
  token_usage : TokenUsage
  attempt : Nat
  run_id : String
deriving DecidableEq, Repr

/-! ## Scorer -/

/-- The per-task score record, components named as in spec §4.6. -/
structure Score where
  compilation : ℚ
  tests : ℚ
  lint : ℚ
  overall : ℚ
deriving DecidableEq, Repr

/-- Modelled from the spec: `Score::compute` lives in
`crates/forgetest-core/src/results.rs`, which is not under `src/`.
Spec §4.6: `compilation` is 1.0 if the code compiled, else 0.0; `tests` is
`passed / (passed + failed)` if a test stage ran (an all-zero run contributes
0.0), else 0.0; `lint` is `max(0, 1 - 0.1 * warning_count)` if a lint stage
ran, else 1.0; `overall` weighs these as `0.4 / 0.5 / 0.1`, and a
compilation-failure case scores exactly 0.0 (spec §4.6 parenthetical,
confirmed by the in-repo test `e2e_compilation_failure`, which asserts
`overall = 0.0` on a compile failure, and by `examples/custom_scorer.rs`,
which short-circuits `!compilation.success` to `0.0`). -/
def Score.compute (r : EvalResult) (_exp : Expectations) : Score :=
  let compilation : ℚ := if r.compilation.success then 1 else 0
  let tests : ℚ :=
    match r.test_execution with
    | some t => if t.passed + t.failed = 0 then 0 else (t.passed : ℚ) / ((t.passed : ℚ) + (t.failed : ℚ))
    | none => 0
  let lint : ℚ :=
    match r.clippy with
    | some c => max 0 (1 - (c.warning_count : ℚ) / 10)
    | none => 1
  let overall : ℚ :=
    if r.compilation.success then
      (2 / 5) * compilation + (1 / 2) * tests + (1 / 10) * lint
    else 0
  { compilation := compilation, tests := tests, lint := lint, overall := overall }

/-! ## Runner requests (`crates/forgetest-core/src/traits.rs`) -/

/-- Embeds `GenerateRequest` from `traits.rs` (temperature modelled as `ℚ`). -/
structure GenerateRequest where
  model : String
  prompt : String
  system_prompt : Option String
  context_files : List ContextFile
  max_tokens : Nat
  temperature : ℚ
  stop_sequences : List String
deriving DecidableEq, Repr

/-- Embeds `GenerateResponse` from `traits.rs`. -/
structure GenerateResponse where
  content : String
  extracted_code : String
  model : String
  token_usage : TokenUsage
  latency_ms : Nat
deriving DecidableEq, Repr

/-- Embeds `CompileRequest` from `traits.rs`. -/
structure CompileRequest where
  code : String
  language : Language
  dependencies : List Dependency
  timeout_secs : Nat
deriving DecidableEq, Repr

/-- Embeds `TestRequest` from `traits.rs`. -/
structure TestRequest where
  code : String
  test_code : String
  language : Language
  dependencies : List Dependency
  timeout_secs : Nat
deriving DecidableEq, Repr

/-- Embeds `ClippyRequest` from `traits.rs`. -/
structure ClippyRequest where
  code : String
  language : Language
  dependencies : List Dependency
  timeout_secs : Nat
deriving DecidableEq, Repr

/-! ## Engine per-task pipeline (`crates/forgetest-core/src/engine.rs`) -/

/-- Embeds `EvalEngineConfig` from `engine.rs` (`retry_delay` in milliseconds). -/
structure EvalEngineConfig where
  parallelism : Nat
  pass_k : List Nat
  temperature : ℚ
  max_tokens : Nat
  max_retries_per_case : Nat
  retry_delay_ms : Nat
  system_prompt_override : Option String
deriving DecidableEq, Repr

/-- The `CodeRunner` capability (`traits.rs`): the engine only observes
runners through these three calls, so a runner is embedded as a triple of
pure response functions. -/
structure RunnerModel where
  compile : CompileRequest → CompilationResult
  run_tests : TestRequest → TestResult
  run_clippy : ClippyRequest → ClippyResult

/-- The requests the engine hands to the runner while assembling one
`EvalResult`, together with that result. -/
structure TaskTrace where
  compile_req : CompileRequest
  test_req : Option TestRequest
  clippy_req : Option ClippyRequest
  result : EvalResult
deriving Repr

/-- The body of one engine task after a successful generation,
`EvalEngine::run` (`engine.rs` lines 164-243): build the compile request
with an empty dependency list, compile, run tests only when compilation
succeeded and the case wants tests and supplies a test file, run clippy
only when compilation succeeded, then assemble the `EvalResult`. -/
def runTask (runner : RunnerModel) (case : EvalCase) (provider_name model : String)
    (resp : GenerateResponse) (llm_ms : Nat) (attempt : Nat) (run_id : String) :
    TaskTrace :=
  let generated_code := resp.extracted_code
  let language := case.language.getD Language.rust
  let timeout_secs := case.timeout_secs.getD 60
  let compile_req : CompileRequest :=
    { code := generated_code, language := language, dependencies := [],
      timeout_secs := timeout_secs }
  let compile_result := runner.compile compile_req
  let compilation_ms := compile_result.duration_ms
  let testPair : Option TestRequest × Option TestResult :=
    if compile_result.success && case.expectations.should_pass_tests then
      match case.expectations.test_file with
      | some test_file =>
          let tr : TestRequest :=
            { code := generated_code, test_code := test_file, language := language,
              dependencies := [], timeout_secs := timeout_secs }
          (some tr, some (runner.run_tests tr))
      | none => (none, none)
    else (none, none)
  let test_execution := testPair.2
  let test_execution_ms := (test_execution.map (·.duration_ms)).getD 0
  let clippyPair : Option ClippyRequest × Option ClippyResult :=
    if compile_result.success then
      let cr : ClippyRequest :=
        { code := generated_code, language := language, dependencies := [],
          timeout_secs := timeout_secs }
      (some cr, some (runner.run_clippy cr))
    else (none, none)
  let total_ms := llm_ms + compilation_ms + test_execution_ms
  { compile_req := compile_req
    test_req := testPair.1
    clippy_req := clippyPair.1
    result :=
      { case_id := case.id
        model := model
        provider := provider_name
        generated_code := generated_code
        compilation := compile_result
        test_execution := test_execution
        clippy := clippyPair.2
        timing :=
          { llm_request_ms := llm_ms, compilation_ms := compilation_ms,
            test_execution_ms := test_execution_ms, total_ms := total_ms }
        token_usage := resp.token_usage
        attempt := attempt
        run_id := run_id } }

/-! ## Report and comparator (`crates/forgetest-core/src/report.rs`) -/

/-- Embeds `EvalSetSummary` from `report.rs`. -/
structure EvalSetSummary where
  id : String
  name : String
  case_count : Nat
deriving DecidableEq, Repr

/-- Aggregate statistics are carried by a report but inspected by no claim;
the maps become association lists and the `f64` rates become `ℚ`. -/
structure ModelStats where
  model : String
  pass_at_k : List (Nat × ℚ)
  avg_compilation_rate : ℚ
  avg_test_pass_rate : ℚ
  avg_clippy_score : ℚ
  total_tokens : Nat
  total_cost_usd : ℚ
  avg_latency_ms : Nat
deriving DecidableEq, Repr

/-- Embeds `CaseStats` from `statistics.rs`. -/
structure CaseStats where
  case_id : String
  per_model_pass_rate : List (String × ℚ)
deriving DecidableEq, Repr

/-- Embeds `AggregateStats` from `statistics.rs`. -/
structure AggregateStats where
  per_model : List (String × ModelStats)
  per_case : List (String × CaseStats)
deriving DecidableEq, Repr

/-- Embeds `EvalReport` from `report.rs` (`id` is a `Uuid`, `created_at` a
timestamp; both opaque to the claims and modelled as `String`). -/
structure EvalReport where
  id : String
  created_at : String
  eval_set : EvalSetSummary
  models_evaluated : List String
  results : List EvalResult
  aggregate : AggregateStats
  duration_ms : Nat
deriving DecidableEq, Repr

/-- Embeds `Regression` from `report.rs`. -/
structure Regression where
  case_id : String
  model : String
  baseline_score : ℚ
  current_score : ℚ
  delta : ℚ
deriving DecidableEq, Repr

/-- Embeds `Improvement` from `report.rs`. -/
structure Improvement where
  case_id : String
  model : String
  baseline_score : ℚ
  current_score : ℚ
  delta : ℚ
deriving DecidableEq, Repr

/-- Embeds `RegressionReport` from `report.rs`. -/
structure RegressionReport where
  regressions : List Regression
  improvements : List Improvement
  unchanged : Nat
  new_cases : Nat
  removed_cases : Nat
deriving DecidableEq, Repr

/-- The `(case_id, model)` key of a result (`report.rs` line 73). -/
def keyOf (r : EvalResult) : String × String := (r.case_id, r.model)

/-- The overall score `EvalReport::compare` attaches to one result
(`report.rs` line 72): `Score::compute` against default expectations. -/
def overallOf (r : EvalResult) : ℚ := (Score.compute r Expectations.default).overall

/-- The key set of the score map built in `EvalReport::compare`
(`report.rs` lines 69-79): each distinct `(case_id, model)` pair of the
report's results, once. -/
def scoreKeys (rs : List EvalResult) : List (String × String) :=
  (rs.map keyOf).dedup

/-- One entry of the score map of `EvalReport::compare`: the entry starts
at `0.0` (`or_insert(0.0)`) and each result with this key raises it to its
overall score when strictly greater, i.e. a fold of `max` over the key's
attempts starting at `0`. -/
def bestScore (rs : List EvalResult) (k : String × String) : ℚ :=
  ((rs.filter (fun r => decide (keyOf r = k))).map overallOf).foldl max 0

/-- Embeds `EvalReport::compare` (`report.rs` lines 63-129).  The Rust code walks
the current score map's entries; the walk is embedded as filters over the
deduplicated key list, with the branch conditions taken verbatim from the
`if delta < -threshold / else if delta > threshold / else` chain. -/
def EvalReport.compare (self baseline : EvalReport) (threshold : ℚ) : RegressionReport :=
  let ck := scoreKeys self.results
  let bk := scoreKeys baseline.results
  let cScore := fun k => bestScore self.results k
  let bScore := fun k => bestScore baseline.results k
  let delta := fun k => cScore k - bScore k
  { regressions :=
      (ck.filter (fun k => decide (k ∈ bk) && decide (delta k < -threshold))).map
        (fun k =>
          { case_id := k.1, model := k.2, baseline_score := bScore k,
            current_score := cScore k, delta := delta k })
    improvements :=
      (ck.filter (fun k =>
          decide (k ∈ bk) && !decide (delta k < -threshold)
            && decide (threshold < delta k))).map
        (fun k =>
          { case_id := k.1, model := k.2, baseline_score := bScore k,
            current_score := cScore k, delta := delta k })
    unchanged :=
      (ck.filter (fun k =>
          decide (k ∈ bk) && !decide (delta k < -threshold)
            && !decide (threshold < delta k))).length
    new_cases := (ck.filter (fun k => !decide (k ∈ bk))).length
    removed_cases := (bk.filter (fun k => !decide (k ∈ ck))).length }

/-- Embeds `RegressionReport::has_regressions` (`report.rs` lines 216-218). -/
def RegressionReport.has_regressions (rr : RegressionReport) : Bool :=
  !rr.regressions.isEmpty

/-! ## Statistics (`crates/forgetest-core/src/statistics.rs`)

`pass_at_k` works on `f64`; the embedding is over `ℝ`.  The inner closure
`log_comb` folds `ln(a-i) - ln(i+1)` over `i in 0..b`; its `b > a` guard
returns `f64::NEG_INFINITY`, which the caller turns into the early result
`1.0` — `ℝ` has no infinities, so that guard appears as the explicit
`n - c < k` branch below, exactly the condition under which the Rust code
returns `1.0` through the `NEG_INFINITY` check. -/

/-- The `log_comb` closure of `pass_at_k` (`statistics.rs` lines 35-44),
for the in-range case `b ≤ a`: `Σ_{i<b} (ln(a-i) - ln(i+1))`. -/
noncomputable def logComb (a b : ℕ) : ℝ :=
  ∑ i ∈ Finset.range b, (Real.log ((a - i : ℕ) : ℝ) - Real.log ((i + 1 : ℕ) : ℝ))

/-- Embeds `pass_at_k` (`statistics.rs` lines 17-54). -/
noncomputable def pass_at_k (n c k : ℕ) : ℝ :=
  if n = 0 ∨ k = 0 then 0
  else if c = 0 then 0
  else if n < k then min ((c : ℝ) / (n : ℝ)) 1
  else if n ≤ c then 1
  else if n - c < k then 1
  else 1 - Real.exp (logComb (n - c) k - logComb n k)

/-- The spec's piecewise description of `pass_at_k` (spec §4.7), written
with the binomial coefficient directly. -/
noncomputable def passAtKSpec (n c k : ℕ) : ℝ :=
  if n = 0 ∨ k = 0 ∨ c = 0 then 0
  else if n < k then min ((c : ℝ) / (n : ℝ)) 1
  else if n ≤ c then 1
  else 1 - (Nat.choose (n - c) k : ℝ) / (Nat.choose n k : ℝ)

lemma logComb_eq_log_choose (a : ℕ) : ∀ b : ℕ, b ≤ a → logComb a b = Real.log (a.choose b)
  | 0, _ => by simp [logComb]
  | b + 1, h => by
    have hb : b ≤ a := Nat.le_of_succ_le h
    have ih := logComb_eq_log_choose a b hb
    have hsum : logComb a (b + 1) =
        logComb a b + (Real.log ((a - b : ℕ) : ℝ) - Real.log ((b + 1 : ℕ) : ℝ)) := by
      unfold logComb
      rw [Finset.sum_range_succ]
    have hcast : (a.choose (b + 1) : ℝ) * ((b + 1 : ℕ) : ℝ) =
        (a.choose b : ℝ) * ((a - b : ℕ) : ℝ) := by
      exact_mod_cast congrArg (fun x : ℕ => (x : ℝ)) (Nat.choose_succ_right_eq a b)
    have h1 : (0 : ℝ) < (a.choose (b + 1) : ℝ) := by
      exact_mod_cast Nat.choose_pos h
    have h2 : (0 : ℝ) < ((b + 1 : ℕ) : ℝ) := by positivity
    have h3 : (0 : ℝ) < (a.choose b : ℝ) := by
      exact_mod_cast Nat.choose_pos hb
    have h4 : (0 : ℝ) < ((a - b : ℕ) : ℝ) := by
      have : 0 < a - b := by omega
      exact_mod_cast this
    have hlog : Real.log (a.choose (b + 1)) + Real.log ((b + 1 : ℕ) : ℝ) =
        Real.log (a.choose b) + Real.log ((a - b : ℕ) : ℝ) := by
      rw [← Real.log_mul (ne_of_gt h1) (ne_of_gt h2), ← Real.log_mul (ne_of_gt h3) (ne_of_gt h4),
        hcast]
    rw [hsum, ih]
    linarith

lemma pass_at_k_eq_spec (n c k : ℕ) : pass_at_k n c k = passAtKSpec n c k := by
  unfold pass_at_k passAtKSpec
  by_cases hnk : n = 0 ∨ k = 0
  · simp only [if_pos hnk]
    rcases hnk with h | h <;> simp [h]
  · rw [if_neg hnk]
    by_cases hc : c = 0
    · simp [hc, hnk]
    · rw [if_neg hc]
      have hcond : ¬(n = 0 ∨ k = 0 ∨ c = 0) := by tauto
      rw [if_neg hcond]
      by_cases hkn : n < k
      · rw [if_pos hkn, if_pos hkn]
      · rw [if_neg hkn, if_neg hkn]
        by_cases hcn : n ≤ c
        · rw [if_pos hcn, if_pos hcn]
        · rw [if_neg hcn, if_neg hcn]
          by_cases hnck : n - c < k
          · rw [if_pos hnck]
            rw [Nat.choose_eq_zero_of_lt hnck]
            simp
          · rw [if_neg hnck]
            have hk1 : k ≤ n - c := Nat.le_of_not_lt hnck
            have hk2 : k ≤ n := Nat.le_of_not_lt hkn
            rw [logComb_eq_log_choose _ _ hk1, logComb_eq_log_choose _ _ hk2]
            have p1 : (0 : ℝ) < ((n - c).choose k : ℝ) := by
              exact_mod_cast Nat.choose_pos hk1
            have p2 : (0 : ℝ) < (n.choose k : ℝ) := by
              exact_mod_cast Nat.choose_pos hk2
            rw [Real.exp_sub, Real.exp_log p1, Real.exp_log p2]

lemma choose_div_le_one (m n k : ℕ) (hmn : m ≤ n) (hk : k ≤ n) :
    (m.choose k : ℝ) / (n.choose k : ℝ) ≤ 1 := by
  have p2 : (0 : ℝ) < (n.choose k : ℝ) := by exact_mod_cast Nat.choose_pos hk
  rw [div_le_one p2]
  exact_mod_cast Nat.choose_le_choose k hmn

lemma passAtKSpec_nonneg (n c k : ℕ) : 0 ≤ passAtKSpec n c k := by
  unfold passAtKSpec
  split_ifs with h1 h2 h3
  · exact le_refl 0
  · have : (0 : ℝ) ≤ (c : ℝ) / (n : ℝ) := by positivity
    exact le_min this zero_le_one
  · exact zero_le_one
  · have hk : k ≤ n := by omega
    have := choose_div_le_one (n - c) n k (Nat.sub_le n c) hk
    linarith

lemma choose_div_succ_le (m n k : ℕ) (hmn : m ≤ n) (hk : k + 1 ≤ n) :
    (m.choose (k + 1) : ℝ) / (n.choose (k + 1) : ℝ) ≤
      (m.choose k : ℝ) / (n.choose k : ℝ) := by
  have pd1 : (0 : ℝ) < (n.choose (k + 1) : ℝ) := by exact_mod_cast Nat.choose_pos hk
  have pd2 : (0 : ℝ) < (n.choose k : ℝ) := by
    exact_mod_cast Nat.choose_pos (Nat.le_of_succ_le hk)
  rw [div_le_div_iff₀ pd1 pd2]
  have hnat : m.choose (k + 1) * n.choose k ≤ m.choose k * n.choose (k + 1) := by
    have h1 : m.choose (k + 1) * n.choose k * (k + 1) ≤
        m.choose k * n.choose (k + 1) * (k + 1) := by
      calc m.choose (k + 1) * n.choose k * (k + 1)
          = m.choose (k + 1) * (k + 1) * n.choose k := by ring
        _ = m.choose k * (m - k) * n.choose k := by rw [Nat.choose_succ_right_eq]
        _ ≤ m.choose k * (n - k) * n.choose k := by
            exact Nat.mul_le_mul_right _ (Nat.mul_le_mul_left _ (Nat.sub_le_sub_right hmn k))
        _ = n.choose k * (n - k) * m.choose k := by ring
        _ = n.choose (k + 1) * (k + 1) * m.choose k := by rw [Nat.choose_succ_right_eq]
        _ = m.choose k * n.choose (k + 1) * (k + 1) := by ring
    exact Nat.le_of_mul_le_mul_right h1 (Nat.succ_pos k)
  exact_mod_cast hnat

lemma choose_div_antitone (m n k₁ : ℕ) (hmn : m ≤ n) :
    ∀ k₂, k₁ ≤ k₂ → k₂ ≤ n →
      (m.choose k₂ : ℝ) / (n.choose k₂ : ℝ) ≤ (m.choose k₁ : ℝ) / (n.choose k₁ : ℝ) := by
  intro k₂
  induction k₂ with
  | zero => intro h _; have : k₁ = 0 := Nat.le_zero.mp h; simp [this]
  | succ k ih =>
    intro h12 hn
    rcases Nat.lt_or_ge k₁ (k + 1) with hlt | hge
    · have hk1k : k₁ ≤ k := Nat.lt_succ_iff.mp hlt
      exact le_trans (choose_div_succ_le m n k hmn hn) (ih hk1k (by omega))
    · have : k₁ = k + 1 := le_antisymm h12 hge
      simp [this]

/-! ## Markdown code extraction (`crates/forgetest-core/src/traits.rs` 173-233)

Strings are processed as `List Char`; `str::lines`, `str::trim`,
`str::trim_start_matches` and `str::to_lowercase` are embedded below
(for ASCII input, where the Rust and Lean notions of whitespace and
lowercasing coincide). -/

/-- The backtick character (extracted from a string literal). -/
def btick : Char := "`".toList.headD ' '

/-- A code fence: three backticks. -/
def fencePre : List Char := "```".toList

/-- Embeds `str::lines`: split at `\n`, strip one `\r` before each `\n`, final
line ending optional.  `cur` accumulates the current line reversed. -/
def rustLinesGo (cur : List Char) : List Char → List (List Char)
  | [] => if cur.isEmpty then [] else [cur.reverse]
  | c :: cs =>
      if c = '\n' then
        (if cur.head? = some '\r' then cur.tail.reverse else cur.reverse) :: rustLinesGo [] cs
      else rustLinesGo (c :: cur) cs

/-- Embeds `str::lines` over the whole input. -/
def rustLines (s : List Char) : List (List Char) := rustLinesGo [] s

/-- Embeds `str::trim`. -/
def trimL (l : List Char) : List Char :=
  ((l.dropWhile Char.isWhitespace).reverse.dropWhile Char.isWhitespace).reverse

/-- The language tag of an opening fence line (`traits.rs` line 186):
`trimmed.trim_start_matches('`').trim().to_lowercase()`. -/
def tagOfLine (trimmed : List Char) : List Char :=
  (trimL (trimmed.dropWhile (fun c => c == btick))).map Char.toLower

/-- Is the tag the target language, by exact name or short tag
(`traits.rs` line 187)? -/
def tagRust (t : List Char) : Bool := t == "rust".toList || t == "rs".toList

/-- Accumulating one in-block line onto the current block
(`traits.rs` lines 204-209): a separating `\n` is pushed only when the
accumulator is nonempty. -/
def pushLine (cur line : List Char) : List Char :=
  if cur.isEmpty then line else cur ++ '\n' :: line

/-- Embeds `Vec<String>::join(sep)`. -/
def joinSep (sep : List Char) : List (List Char) → List Char
  | [] => []
  | [l] => l
  | l :: ls => l ++ sep ++ joinSep sep ls

/-- The line loop of `extract_code_from_markdown` (`traits.rs` lines
181-219) followed by its truncated-block commit: state is
`(in_block, is_rust_block, is_generic_block, current_block)` plus the two
block buckets; returns the final `(rust_blocks, generic_blocks)`. -/
def extGo : List (List Char) → Bool → Bool → Bool → List Char →
    List (List Char) → List (List Char) → List (List Char) × List (List Char)
  | [], in_block, isR, isG, cur, rb, gb =>
      if in_block && !cur.isEmpty then
        if isR then (rb ++ [cur], gb) else if isG then (rb, gb ++ [cur]) else (rb, gb)
      else (rb, gb)
  | line :: rest, in_block, isR, isG, cur, rb, gb =>
      let trimmed := trimL line
      if !in_block && fencePre.isPrefixOf trimmed then
        let lang := tagOfLine trimmed
        extGo rest true (tagRust lang) lang.isEmpty [] rb gb
      else if in_block && trimmed == fencePre then
        if isR then extGo rest false isR isG [] (rb ++ [cur]) gb
        else if isG then extGo rest false isR isG [] rb (gb ++ [cur])
        else extGo rest false isR isG [] rb gb
      else if in_block then
        extGo rest true isR isG (pushLine cur line) rb gb
      else extGo rest in_block isR isG cur rb gb

/-- Embeds `extract_code_from_markdown` (`traits.rs` lines 173-233) over
`List Char`. -/
def extractCore (s : List Char) : List Char :=
  let bs := extGo (rustLines s) false false false [] [] []
  if !bs.1.isEmpty then joinSep ('\n' :: '\n' :: []) bs.1
  else if !bs.2.isEmpty then joinSep ('\n' :: '\n' :: []) bs.2
  else s

/-- Embeds `extract_code_from_markdown` on `String`. -/
def extract_code_from_markdown (s : String) : String :=
  String.mk (extractCore s.toList)

/-! ### Claim-side description of the extractor

A recursive-descent reading of the claim: scan for an opening fence,
take every line up to the closing fence (or the end of input) as the
block's content, and collect `(tag, content lines, closed?)` triples. -/

/-- Consume block content until a closing fence or end of input; returns
`(content lines, remaining lines, whether a closing fence was found)`. -/
def takeBlock : List (List Char) → List (List Char) × List (List Char) × Bool
  | [] => ([], [], false)
  | l :: rest =>
      if trimL l == fencePre then ([], rest, true)
      else
        ((takeBlock rest).1.cons l, (takeBlock rest).2.1, (takeBlock rest).2.2)

lemma takeBlock_rem_length : ∀ ls : List (List Char), (takeBlock ls).2.1.length ≤ ls.length := by
  intro ls
  induction ls with
  | nil => simp [takeBlock]
  | cons l rest ih =>
    by_cases h : trimL l == fencePre
    · simp [takeBlock, h]
    · simp only [takeBlock, h]
      simpa using Nat.le_succ_of_le ih

/-- All fenced blocks of a line list, as `(tag, content lines, closed?)`;
`fuel` bounds the recursion (any `fuel ≥` the number of lines is enough,
since every step consumes at least one line). -/
def specBlocksF : Nat → List (List Char) → List (List Char × List (List Char) × Bool)
  | 0, _ => []
  | _, [] => []
  | fuel + 1, l :: rest =>
      if fencePre.isPrefixOf (trimL l) then
        (tagOfLine (trimL l), (takeBlock rest).1, (takeBlock rest).2.2) ::
          specBlocksF fuel (takeBlock rest).2.1
      else specBlocksF fuel rest

/-- All fenced blocks of a line list. -/
def specBlocks (ls : List (List Char)) : List (List Char × List (List Char) × Bool) :=
  specBlocksF ls.length ls

lemma specBlocksF_irrel : ∀ f1 : Nat, ∀ ls : List (List Char), ls.length ≤ f1 →
    ∀ f2 : Nat, ls.length ≤ f2 → specBlocksF f1 ls = specBlocksF f2 ls := by
  intro f1
  induction f1 with
  | zero =>
    intro ls h1 f2 h2
    have : ls = [] := List.length_eq_zero.mp (Nat.le_zero.mp h1)
    subst this
    cases f2 <;> rfl
  | succ f ih =>
    intro ls h1 f2 h2
    cases ls with
    | nil => cases f2 <;> rfl
    | cons l rest =>
      cases f2 with
      | zero => simp at h2
      | succ f2' =>
        simp only [specBlocksF]
        by_cases hf : fencePre.isPrefixOf (trimL l)
        · simp only [hf, if_true]
          have hr := takeBlock_rem_length rest
          have hl : (takeBlock rest).2.1.length ≤ f := by
            simp only [List.length_cons] at h1
            omega
          have hl2 : (takeBlock rest).2.1.length ≤ f2' := by
            simp only [List.length_cons] at h2
            omega
          rw [ih (takeBlock rest).2.1 hl f2' hl2]
        · simp only [hf, if_false]
          have hl : rest.length ≤ f := by
            simp only [List.length_cons] at h1
            omega
          have hl2 : rest.length ≤ f2' := by
            simp only [List.length_cons] at h2
            omega
          exact ih rest hl f2' hl2

lemma specBlocks_fence {l : List Char} (rest : List (List Char))
    (h : fencePre.isPrefixOf (trimL l) = true) :
    specBlocks (l :: rest) =
      (tagOfLine (trimL l), (takeBlock rest).1, (takeBlock rest).2.2) ::
        specBlocks (takeBlock rest).2.1 := by
  unfold specBlocks
  simp only [List.length_cons, specBlocksF, h, if_true]
  rw [specBlocksF_irrel rest.length (takeBlock rest).2.1 (takeBlock_rem_length rest)
    (takeBlock rest).2.1.length (le_refl _)]

lemma specBlocks_other {l : List Char} (rest : List (List Char))
    (h : ¬ fencePre.isPrefixOf (trimL l) = true) :
    specBlocks (l :: rest) = specBlocks rest := by
  unfold specBlocks
  simp only [List.length_cons, specBlocksF]
  rw [if_neg h]

/-- The literal claim: every block counts (an unclosed trailing block is
treated as closed), and a block's content is its lines joined by
newlines. -/
def litBlocks (ls : List (List Char)) : List (List Char × List Char) :=
  (specBlocks ls).map (fun b => (b.1, joinSep ['\n'] b.2.1))

/-- The target-tagged blocks of the literal claim. -/
def litR (ls : List (List Char)) : List (List Char) :=
  ((litBlocks ls).filter (fun b => tagRust b.1)).map (fun b => b.2)

/-- The untagged blocks of the literal claim. -/
def litG (ls : List (List Char)) : List (List Char) :=
  ((litBlocks ls).filter (fun b => b.1.isEmpty)).map (fun b => b.2)

/-- The claim as literally stated: target-tagged blocks joined by one
blank line, else untagged blocks, else the input verbatim. -/
def extractSpecLit (s : List Char) : List Char :=
  if !(litR (rustLines s)).isEmpty then joinSep ('\n' :: '\n' :: []) (litR (rustLines s))
  else if !(litG (rustLines s)).isEmpty then joinSep ('\n' :: '\n' :: []) (litG (rustLines s))
  else s

/-- The amended block list: a block's content is its lines joined by
newlines after dropping leading empty lines, and an unclosed trailing
block is kept only when that content is nonempty. -/
def amdBlocks (ls : List (List Char)) : List (List Char × List Char) :=
  (specBlocks ls).filterMap (fun b =>
    if b.2.2 || !(joinSep ['\n'] (b.2.1.dropWhile List.isEmpty)).isEmpty then
      some (b.1, joinSep ['\n'] (b.2.1.dropWhile List.isEmpty))
    else none)

/-- The target-tagged blocks of the amended claim. -/
def amdR (ls : List (List Char)) : List (List Char) :=
  ((amdBlocks ls).filter (fun b => tagRust b.1)).map (fun b => b.2)

/-- The untagged blocks of the amended claim. -/
def amdG (ls : List (List Char)) : List (List Char) :=
  ((amdBlocks ls).filter (fun b => b.1.isEmpty)).map (fun b => b.2)

/-- The amended claim, as a function. -/
def extractSpecAmd (s : List Char) : List Char :=
  if !(amdR (rustLines s)).isEmpty then joinSep ('\n' :: '\n' :: []) (amdR (rustLines s))
  else if !(amdG (rustLines s)).isEmpty then joinSep ('\n' :: '\n' :: []) (amdG (rustLines s))
  else s

/-! ## Sandbox (`crates/forgetest-runner/src/sandbox.rs`)

The sandbox's working directory is embedded as an association list from
paths to file contents; `str::contains` is embedded as a substring test. -/

/-- Embeds `str::contains(pat)`: some suffix of `hay` starts with `pat`. -/
def isSubstring (pat hay : List Char) : Bool :=
  (List.range (hay.length + 1)).any (fun i => pat.isPrefixOf (hay.drop i))

/-- Embeds `str::contains` on `String`s. -/
def containsSub (hay pat : String) : Bool := isSubstring pat.toList hay.toList

/-- The sandbox working directory: path → content. -/
structure SandboxFS where
  files : List (String × String)
deriving DecidableEq, Repr

/-- Read a file of the sandbox directory. -/
def readFS (fs : SandboxFS) (path : String) : Option String :=
  (fs.files.find? (fun p => p.1 == path)).map (·.2)

/-- Write (create or overwrite) a file of the sandbox directory. -/
def writeFS (fs : SandboxFS) (path content : String) : SandboxFS :=
  { files := (path, content) :: fs.files.filter (fun p => !(p.1 == path)) }

/-- The manifest written by `Sandbox::new` (`sandbox.rs` lines 32-38). -/
def cargoManifest : String :=
  "[package]\nname = \"eval_target\"\nversion = \"0.1.0\"\nedition = \"2021\"\n\n[dependencies]\n"

/-- Embeds `Sandbox::new` (`sandbox.rs` lines 28-58): fresh directory with the
manifest and an empty `src/lib.rs`. -/
def Sandbox.fresh : SandboxFS :=
  writeFS (writeFS { files := [] } "Cargo.toml" cargoManifest) "src/lib.rs" ""

/-- Embeds `Sandbox::write_source` (`sandbox.rs` lines 84-93): the code goes to
`src/main.rs` when it contains the substring `fn main`, else to
`src/lib.rs`. -/
def Sandbox.write_source (fs : SandboxFS) (code : String) : SandboxFS :=
  let filename := if containsSub code "fn main" then "src/main.rs" else "src/lib.rs"
  writeFS fs filename code

/-- Embeds `Sandbox::write_test` (`sandbox.rs` lines 98-104): appends the test
code to `src/lib.rs` (reading `""` when absent), separated by a blank
line. -/
def Sandbox.write_test (fs : SandboxFS) (test_code : String) : SandboxFS :=
  let existing := (readFS fs "src/lib.rs").getD ""
  writeFS fs "src/lib.rs" (existing ++ "\n\n" ++ test_code)

/-! ## Generation retry loop (`crates/forgetest-core/src/engine.rs` 155-264)

The loop around `provider.generate` is embedded as a pure function of the
sequence of provider outcomes (`gen i` is the outcome of the `i`-th call,
`0`-indexed).  The trace records every backoff sleep (in milliseconds), the
number of `generate` calls made, and the final outcome.  Error
classification is by substring of the error's display string, exactly as in
the Rust code. -/

/-- Embeds `engine.rs` lines 248-250: an error is permanent when its message
contains `authentication` or `model not found`. -/
def isPermanentErr (e : String) : Bool :=
  isSubstring "authentication".toList e.toList ||
    isSubstring "model not found".toList e.toList

/-- Embeds `engine.rs` line 254: the rate-limit check. -/
def containsRateLimited (e : String) : Bool :=
  isSubstring "rate limited".toList e.toList

/-- Digits to a number, most significant first. -/
def natOfDigits (l : List Char) : Nat :=
  l.foldl (fun acc c => 10 * acc + (c.toNat - 48)) 0

/-- Embeds `str::parse::<u64>`: an optional leading `+`, then a nonempty digit
string whose value fits in 64 bits. -/
def parseU64 (l : List Char) : Option Nat :=
  let body := if l.head? = some '+' then l.tail else l
  if !body.isEmpty && body.all Char.isDigit && decide (natOfDigits body < 2 ^ 64) then
    some (natOfDigits body)
  else none

/-- Embeds `parse_retry_after_ms` (`engine.rs` lines 316-322): strip the literal
message pieces of `ProviderError::RateLimited` and parse the rest. -/
def parse_retry_after_ms (e : String) : Option Nat :=
  let l := e.toList
  let pre := "rate limited, retry after ".toList
  if pre.isPrefixOf l then
    let rest := l.drop pre.length
    if "ms".toList.isSuffixOf rest then
      parseU64 (rest.take (rest.length - 2))
    else none
  else none

instance : DecidableEq (Except String GenerateResponse) := fun a b =>
  match a, b with
  | Except.ok x, Except.ok y =>
      if h : x = y then isTrue (by rw [h]) else isFalse (by intro he; cases he; exact h rfl)
  | Except.error x, Except.error y =>
      if h : x = y then isTrue (by rw [h]) else isFalse (by intro he; cases he; exact h rfl)
  | Except.ok _, Except.error _ => isFalse (by intro he; cases he)
  | Except.error _, Except.ok _ => isFalse (by intro he; cases he)

/-- The observable behaviour of one run of the retry loop. -/
structure RetryTrace where
  sleeps : List Nat
  attempts : Nat
  outcome : Except String GenerateResponse
deriving DecidableEq, Repr

/-- The `for retry in 0..=max_retries_per_case` loop of `EvalEngine::run`
(`engine.rs` lines 156-264): on iterations after the first, sleep the
current delay and then double it (capped at 60 s); call `generate`; return
on success; return immediately on a permanent error; on a rate-limited
error override the next delay with the parsed hint when present. -/
def retryGo (gen : Nat → Except String GenerateResponse) :
    Nat → Nat → Nat → Option String → RetryTrace
  | 0, _, _, lastErr => ⟨[], 0, Except.error (lastErr.getD "unknown error")⟩
  | fuel + 1, idx, delay, _ =>
      let sleepsHere : List Nat := if 0 < idx then [delay] else []
      let delay2 := if 0 < idx then min (delay * 2) 60000 else delay
      match gen idx with
      | Except.ok r => ⟨sleepsHere, 1, Except.ok r⟩
      | Except.error e =>
          if isPermanentErr e then ⟨sleepsHere, 1, Except.error e⟩
          else
            let nextDelay :=
              if containsRateLimited e then
                match parse_retry_after_ms e with
                | some ms => ms
                | none => delay2
              else delay2
            let t := retryGo gen fuel (idx + 1) nextDelay (some e)
            ⟨sleepsHere ++ t.sleeps, t.attempts + 1, t.outcome⟩

/-- The whole retry loop: `max_retries_per_case + 1` loop iterations
(`0..=max_retries_per_case`), starting before the first attempt with the
configured delay and no recorded error. -/
def generateWithRetry (gen : Nat → Except String GenerateResponse)
    (maxRetries initialDelay : Nat) : RetryTrace :=
  retryGo gen (maxRetries + 1) 0 initialDelay none

/-- Claim-side delay bookkeeping: a failed attempt that is rate limited
with a parsable hint overrides the pending delay with that hint. -/
def applyHint (o : Except String GenerateResponse) (d : Nat) : Nat :=
  match o with
  | Except.error e =>
      if containsRateLimited e then
        match parse_retry_after_ms e with
        | some ms => ms
        | none => d
      else d
  | Except.ok _ => d

/-- Claim-side delay schedule: the delay before the first retry is the
configured delay (unless attempt 0 was rate limited with a hint), and
each later delay is the previous one doubled and capped at 60 s (unless
that attempt was rate limited with a hint). -/
def specDelay (gen : Nat → Except String GenerateResponse) (d0 : Nat) : Nat → Nat
  | 0 => applyHint (gen 0) d0
  | j + 1 => applyHint (gen (j + 1)) (min (specDelay gen d0 j * 2) 60000)

/-! ## Sample values for witnesses -/

/-- A successful compile result. -/
def okCompile : CompilationResult := ⟨true, [], [], 7⟩

/-- A failed compile result with one error diagnostic. -/
def failCompile : CompilationResult := ⟨false, [⟨"error", "expected semicolon"⟩], [], 7⟩

/-- A clean test run. -/
def okTests : TestResult := ⟨3, 0, 0, 11, []⟩

/-- A clean lint run. -/
def okClippy : ClippyResult := ⟨[], 0⟩

/-- A runner whose compile stage succeeds. -/
def okRunner : RunnerModel := ⟨fun _ => okCompile, fun _ => okTests, fun _ => okClippy⟩

/-- A runner whose compile stage fails. -/
def failRunner : RunnerModel := ⟨fun _ => failCompile, fun _ => okTests, fun _ => okClippy⟩

/-- Zero token usage. -/
def zeroUsage : TokenUsage := ⟨0, 0, 0, 0⟩

/-- A sample provider response. -/
def sampleResp : GenerateResponse :=
  ⟨"Here is the code", "pub fn add(a: i32, b: i32) -> i32", "m", zeroUsage, 5⟩

/-- Expectations requesting tests with a test battery supplied. -/
def sampleExpect : Expectations :=
  { Expectations.default with test_file := some "mod tests" }

/-- A sample case carrying a nonempty declared dependency list. -/
def sampleCase : EvalCase :=
  ⟨"case1", "Case 1", "", "Write add", some Language.rust, [], sampleExpect, [],
    [⟨"serde", "1", ["derive"]⟩], some 30, none⟩

/-! ## C1 -/

/-- C1: for every `EvalResult` recorded by `EvalEngine::run`, the
`test_execution` field is `none` whenever compilation failed, or the case
does not request tests, or no test source is supplied; and the `clippy`
field is `none` whenever compilation failed. -/
theorem eval_result_stage_presence (runner : RunnerModel) (case : EvalCase)
    (pn mdl : String) (resp : GenerateResponse) (llm_ms attempt : Nat) (run_id : String) :
    ((runTask runner case pn mdl resp llm_ms attempt run_id).result.compilation.success = false ∨
        case.expectations.should_pass_tests = false ∨
        case.expectations.test_file = none →
      (runTask runner case pn mdl resp llm_ms attempt run_id).result.test_execution = none) ∧
    ((runTask runner case pn mdl resp llm_ms attempt run_id).result.compilation.success = false →
      (runTask runner case pn mdl resp llm_ms attempt run_id).result.clippy = none) := by
  constructor
  · intro h
    rcases h with h | h | h
    · simp only [runTask] at h ⊢
      simp [h]
    · simp only [runTask]
      simp [h]
    · simp only [runTask]
      simp [h]
  · intro h
    simp only [runTask] at h ⊢
    simp [h]

/-- C1 witness: with a failing compiler, a concrete task records neither a
test run nor a lint run. -/
theorem eval_result_stage_presence_witness :
    (runTask failRunner sampleCase "p" "m" sampleResp 5 1 "run").result.compilation.success = false ∧
    (runTask failRunner sampleCase "p" "m" sampleResp 5 1 "run").result.test_execution = none ∧
    (runTask failRunner sampleCase "p" "m" sampleResp 5 1 "run").result.clippy = none := by
  have h := eval_result_stage_presence failRunner sampleCase "p" "m" sampleResp 5 1 "run"
  exact ⟨by decide, h.1 (Or.inl (by decide)), h.2 (by decide)⟩

/-! ## C10 -/

/-- C10: every `CompileRequest`, `TestRequest` and `ClippyRequest` the
engine passes to the runner carries an empty dependency list, regardless
of the case's declared dependencies. -/
theorem engine_requests_empty_dependencies (runner : RunnerModel) (case : EvalCase)
    (pn mdl : String) (resp : GenerateResponse) (llm_ms attempt : Nat) (run_id : String) :
    (runTask runner case pn mdl resp llm_ms attempt run_id).compile_req.dependencies = [] ∧
    (∀ tr, (runTask runner case pn mdl resp llm_ms attempt run_id).test_req = some tr →
      tr.dependencies = []) ∧
    (∀ cr, (runTask runner case pn mdl resp llm_ms attempt run_id).clippy_req = some cr →
      cr.dependencies = []) := by
  refine ⟨rfl, ?_, ?_⟩
  · intro tr htr
    simp only [runTask] at htr
    split at htr
    · split at htr
      · cases htr
        rfl
      · cases htr
    · cases htr
  · intro cr hcr
    simp only [runTask] at hcr
    split at hcr
    · cases hcr
      rfl
    · cases hcr

/-- The test request the engine builds for `sampleCase`. -/
def sampleTestReq : TestRequest :=
  ⟨"pub fn add(a: i32, b: i32) -> i32", "mod tests", Language.rust, [], 30⟩

/-- The clippy request the engine builds for `sampleCase`. -/
def sampleClippyReq : ClippyRequest :=
  ⟨"pub fn add(a: i32, b: i32) -> i32", Language.rust, [], 30⟩

/-- C10 witness: a concrete case declaring `serde` still yields requests
with empty dependency lists; the test and clippy requests are present
(successful compile, tests requested, test file supplied). -/
theorem engine_requests_empty_dependencies_witness :
    sampleCase.dependencies ≠ [] ∧
    (runTask okRunner sampleCase "p" "m" sampleResp 5 1 "run").compile_req.dependencies = [] ∧
    (∃ tr, (runTask okRunner sampleCase "p" "m" sampleResp 5 1 "run").test_req = some tr ∧
      tr.dependencies = []) ∧
    (∃ cr, (runTask okRunner sampleCase "p" "m" sampleResp 5 1 "run").clippy_req = some cr ∧
      cr.dependencies = []) := by
  have h := engine_requests_empty_dependencies okRunner sampleCase "p" "m" sampleResp 5 1 "run"
  refine ⟨by decide, h.1, ?_, ?_⟩
  · exact ⟨sampleTestReq, by decide, h.2.1 sampleTestReq (by decide)⟩
  · exact ⟨sampleClippyReq, by decide, h.2.2 sampleClippyReq (by decide)⟩

/-! ## C6 -/

/-- A recorded result whose compilation failed (so, by the pipeline shape,
with no test and no lint stage). -/
def compileFailResult : EvalResult :=
  { case_id := "broken", model := "m", provider := "p",
    generated_code := "pub fn add(", compilation := failCompile,
    test_execution := none, clippy := none,
    timing := ⟨0, 7, 0, 7⟩, token_usage := zeroUsage, attempt := 1, run_id := "run" }

/-- C6 counterexample: on a compilation failure the claimed weighted
formula gives `0.1` (the skipped lint stage contributes `lint = 1.0`), but
the scorer yields exactly `0.0`; so `overall` does not always equal
`0.4·compilation + 0.5·tests + 0.1·lint`. -/
theorem score_weighted_formula_fails_on_compile_failure :
    (Score.compute compileFailResult Expectations.default).overall ≠
      (2 / 5) * (Score.compute compileFailResult Expectations.default).compilation
        + (1 / 2) * (Score.compute compileFailResult Expectations.default).tests
        + (1 / 10) * (Score.compute compileFailResult Expectations.default).lint := by
  simp only [Score.compute, compileFailResult, failCompile, Expectations.default]
  norm_num

/-- C6 amended: the components are as claimed; the weighted formula
`0.4·compilation + 0.5·tests + 0.1·lint` gives `overall` exactly when
compilation succeeded, and a compilation failure scores exactly `0.0`
(the skipped-lint credit of `1.0` is not applied). -/
theorem score_components (r : EvalResult) (exp : Expectations) :
    (Score.compute r exp).compilation = (if r.compilation.success then 1 else 0) ∧
    (Score.compute r exp).tests = (match r.test_execution with
      | some t => if t.passed + t.failed = 0 then 0
          else (t.passed : ℚ) / ((t.passed : ℚ) + (t.failed : ℚ))
      | none => 0) ∧
    (Score.compute r exp).lint = (match r.clippy with
      | some c => max 0 (1 - (c.warning_count : ℚ) / 10)
      | none => 1) ∧
    (r.compilation.success = true →
      (Score.compute r exp).overall =
        (2 / 5) * (Score.compute r exp).compilation
          + (1 / 2) * (Score.compute r exp).tests
          + (1 / 10) * (Score.compute r exp).lint) ∧
    (r.compilation.success = false → (Score.compute r exp).overall = 0) := by
  refine ⟨rfl, rfl, rfl, ?_, ?_⟩
  · intro h
    simp [Score.compute, h]
  · intro h
    simp [Score.compute, h]

/-- A recorded result with a successful compile, a clean test run and a
clean lint run. -/
def fullOkResult : EvalResult :=
  { case_id := "ok", model := "m", provider := "p",
    generated_code := "pub fn add", compilation := okCompile,
    test_execution := some okTests, clippy := some okClippy,
    timing := ⟨5, 7, 11, 23⟩, token_usage := zeroUsage, attempt := 1, run_id := "run" }

/-- C6 witness: the weighted formula applies to a concrete compiled
result, and a concrete compile failure scores `0.0`. -/
theorem score_components_witness :
    (Score.compute fullOkResult Expectations.default).overall =
      (2 / 5) * (Score.compute fullOkResult Expectations.default).compilation
        + (1 / 2) * (Score.compute fullOkResult Expectations.default).tests
        + (1 / 10) * (Score.compute fullOkResult Expectations.default).lint ∧
    (Score.compute compileFailResult Expectations.default).overall = 0 := by
  exact ⟨(score_components fullOkResult Expectations.default).2.2.2.1 (by decide),
    (score_components compileFailResult Expectations.default).2.2.2.2 (by decide)⟩

/-! ## C9 -/

lemma readFS_writeFS_self (fs : SandboxFS) (p c : String) :
    readFS (writeFS fs p c) p = some c := by
  simp [readFS, writeFS, List.find?]

lemma find_filter_ne (l : List (String × String)) (p q : String) (h : q ≠ p) :
    (l.filter (fun pr => !(pr.1 == p))).find? (fun pr => pr.1 == q) =
      l.find? (fun pr => pr.1 == q) := by
  induction l with
  | nil => rfl
  | cons pr t ih =>
    by_cases h1 : pr.1 = p
    · have hf : ¬(!(pr.1 == p)) = true := by simp [h1]
      have hq : ¬(pr.1 == q) = true := by
        simp only [beq_iff_eq, h1]
        exact fun hqq => h hqq.symm
      rw [@List.filter_cons_of_neg _ (fun pr => !(pr.1 == p)) pr t hf,
        @List.find?_cons_of_neg _ (fun pr => pr.1 == q) pr t hq]
      exact ih
    · have hf : (!(pr.1 == p)) = true := by simp [h1]
      rw [@List.filter_cons_of_pos _ (fun pr => !(pr.1 == p)) pr t hf]
      by_cases h2 : pr.1 = q
      · have hq : (pr.1 == q) = true := by simp [h2]
        rw [@List.find?_cons_of_pos _ (fun pr => pr.1 == q) pr _ hq,
          @List.find?_cons_of_pos _ (fun pr => pr.1 == q) pr t hq]
      · have hq : ¬(pr.1 == q) = true := by simp [h2]
        rw [@List.find?_cons_of_neg _ (fun pr => pr.1 == q) pr _ hq,
          @List.find?_cons_of_neg _ (fun pr => pr.1 == q) pr t hq]
        exact ih

lemma readFS_writeFS_other (fs : SandboxFS) (p q c : String) (h : q ≠ p) :
    readFS (writeFS fs p c) q = readFS fs q := by
  have hq : (p == q) = false := by
    simp
    intro hqq
    exact h hqq.symm
  simp only [readFS, writeFS, List.find?, hq]
  rw [find_filter_ne fs.files p q h]

/-- The sandbox state after writing binary-style code and then the test
battery. -/
def mainThenTestFS : SandboxFS :=
  Sandbox.write_test (Sandbox.write_source Sandbox.fresh "fn main() {}") "#[test] fn t() {}"

/-- C9 counterexample: writing code containing `fn main` puts it in
`src/main.rs`, but `write_test` still appends to `src/lib.rs`; the file
holding the generated code does not receive the tests (and the test file
does not contain the code), so the tests do not share the module scope of
the generated code. -/
theorem write_test_misses_main_code :
    readFS mainThenTestFS "src/main.rs" = some "fn main() {}" ∧
    readFS mainThenTestFS "src/lib.rs" = some "\n\n#[test] fn t() {}" ∧
    containsSub "fn main() {}" "#[test]" = false ∧
    containsSub "\n\n#[test] fn t() {}" "fn main" = false := by
  refine ⟨by decide, by decide, by decide, by decide⟩

/-- C9 amended: `write_source` writes the code to `src/main.rs` exactly
when the code contains the substring `fn main` anywhere (not necessarily a
top-level definition), else to `src/lib.rs`, leaving every other path
untouched; `write_test` always appends the test battery to `src/lib.rs`
after a blank line, so the tests share the module scope of the generated
code only when the code was written to `src/lib.rs`. -/
theorem sandbox_write_spec (fs : SandboxFS) (code test_code : String) :
    (readFS (Sandbox.write_source fs code)
        (if containsSub code "fn main" then "src/main.rs" else "src/lib.rs") = some code) ∧
    (∀ p, p ≠ (if containsSub code "fn main" then "src/main.rs" else "src/lib.rs") →
      readFS (Sandbox.write_source fs code) p = readFS fs p) ∧
    (readFS (Sandbox.write_test fs test_code) "src/lib.rs" =
      some ((readFS fs "src/lib.rs").getD "" ++ "\n\n" ++ test_code)) ∧
    (containsSub code "fn main" = false →
      readFS (Sandbox.write_test (Sandbox.write_source fs code) test_code) "src/lib.rs" =
        some (code ++ "\n\n" ++ test_code)) := by
  refine ⟨?_, ?_, ?_, ?_⟩
  · unfold Sandbox.write_source
    exact readFS_writeFS_self fs _ code
  · intro p hp
    unfold Sandbox.write_source
    exact readFS_writeFS_other fs _ p code hp
  · unfold Sandbox.write_test
    exact readFS_writeFS_self fs _ _
  · intro h
    unfold Sandbox.write_test Sandbox.write_source
    rw [h]
    simp only [Bool.false_eq_true, if_false]
    rw [readFS_writeFS_self fs "src/lib.rs" code]
    exact readFS_writeFS_self _ _ _

/-- C9 witness: library-style code and its tests end up together in
`src/lib.rs`, other paths are untouched, and the appended content is the
code, a blank line, then the tests. -/
theorem sandbox_write_spec_witness :
    readFS (Sandbox.write_test (Sandbox.write_source Sandbox.fresh "pub fn add() {}")
        "#[test] fn t() {}") "src/lib.rs" = some "pub fn add() {}\n\n#[test] fn t() {}" ∧
    readFS (Sandbox.write_source Sandbox.fresh "pub fn add() {}") "Cargo.toml" =
      readFS Sandbox.fresh "Cargo.toml" := by
  have h := sandbox_write_spec Sandbox.fresh "pub fn add() {}" "#[test] fn t() {}"
  constructor
  · rw [h.2.2.2 (by decide)]
    decide
  · have hc : containsSub "pub fn add() {}" "fn main" = false := by decide
    have := h.2.1 "Cargo.toml"
    rw [hc] at this
    exact this (by decide)

/-! ## C2 -/

/-- C2: `pass_at_k(n, c, k)` returns `0` when `n = 0`, `k = 0` or `c = 0`;
`min(c/n, 1)` when `k > n`; `1` when `c ≥ n` (and `k ≤ n`); and otherwise
`1 - C(n-c, k)/C(n, k)`, which in the in-range case `k ≤ n - c` it reaches
through the log-space form `1 - exp(log C(n-c,k) - log C(n,k))`. -/
theorem pass_at_k_piecewise (n c k : ℕ) :
    pass_at_k n c k =
      (if n = 0 ∨ k = 0 ∨ c = 0 then 0
       else if n < k then min ((c : ℝ) / (n : ℝ)) 1
       else if n ≤ c then 1
       else 1 - ((n - c).choose k : ℝ) / (n.choose k : ℝ)) ∧
    (0 < c → 0 < k → k ≤ n - c →
      pass_at_k n c k = 1 - Real.exp (logComb (n - c) k - logComb n k)) := by
  constructor
  · exact pass_at_k_eq_spec n c k
  · intro hc hk hknc
    unfold pass_at_k
    rw [if_neg (by omega), if_neg (by omega), if_neg (by omega), if_neg (by omega),
      if_neg (by omega)]

/-- C2 witness: at `(n, c, k) = (5, 2, 2)` the side conditions hold and the
value is the log-space expression. -/
theorem pass_at_k_piecewise_witness :
    (0 < 2 ∧ 0 < 2 ∧ 2 ≤ 5 - 2) ∧
    pass_at_k 5 2 2 = 1 - Real.exp (logComb 3 2 - logComb 5 2) := by
  refine ⟨by norm_num, ?_⟩
  exact (pass_at_k_piecewise 5 2 2).2 (by norm_num) (by norm_num) (by norm_num)

/-! ## C3 -/

/-- C3 counterexample: monotonicity in `k` fails across the `k ≤ n` to
`k > n` boundary: `pass_at_k(2, 1, 2) = 1` but `pass_at_k(2, 1, 3) = 1/2`. -/
theorem pass_at_k_decreases_past_n : ¬ (pass_at_k 2 1 2 ≤ pass_at_k 2 1 3) := by
  have h2 : pass_at_k 2 1 2 = 1 := by
    rw [pass_at_k_eq_spec]
    unfold passAtKSpec
    norm_num [Nat.choose]
  have h3 : pass_at_k 2 1 3 = 1 / 2 := by
    rw [pass_at_k_eq_spec]
    unfold passAtKSpec
    norm_num [min_def]
  rw [h2, h3]
  norm_num

/-- C3 amended: `pass_at_k(n, c, k)` is non-decreasing in `k` as long as
`k` stays within `n` (`k₁ ≤ k₂ ≤ n`); for `k > n` the value is the constant
`min(c/n, 1)`, which can be smaller than the value at `k = n`, so
monotonicity does not extend across that boundary. -/
theorem pass_at_k_monotone_k_le_n (n c k₁ k₂ : ℕ) (h12 : k₁ ≤ k₂) (h2n : k₂ ≤ n) :
    pass_at_k n c k₁ ≤ pass_at_k n c k₂ := by
  rw [pass_at_k_eq_spec, pass_at_k_eq_spec]
  by_cases hc : c = 0
  · have hL : passAtKSpec n c k₁ = 0 := by simp [passAtKSpec, hc]
    have hR : passAtKSpec n c k₂ = 0 := by simp [passAtKSpec, hc]
    rw [hL, hR]
  by_cases hn : n = 0
  · have h1 : k₁ = 0 := by omega
    have hL : passAtKSpec n c k₁ = 0 := by simp [passAtKSpec, h1]
    rw [hL]
    exact passAtKSpec_nonneg n c k₂
  by_cases hk1 : k₁ = 0
  · have hL : passAtKSpec n c k₁ = 0 := by simp [passAtKSpec, hk1]
    rw [hL]
    exact passAtKSpec_nonneg n c k₂
  by_cases hcn : n ≤ c
  · have hL : passAtKSpec n c k₁ = 1 := by
      unfold passAtKSpec
      rw [if_neg (by omega), if_neg (by omega), if_pos hcn]
    have hR : passAtKSpec n c k₂ = 1 := by
      unfold passAtKSpec
      rw [if_neg (by omega), if_neg (by omega), if_pos hcn]
    rw [hL, hR]
  · have hL : passAtKSpec n c k₁ = 1 - ((n - c).choose k₁ : ℝ) / (n.choose k₁ : ℝ) := by
      unfold passAtKSpec
      rw [if_neg (by omega), if_neg (by omega), if_neg hcn]
    have hR : passAtKSpec n c k₂ = 1 - ((n - c).choose k₂ : ℝ) / (n.choose k₂ : ℝ) := by
      unfold passAtKSpec
      rw [if_neg (by omega), if_neg (by omega), if_neg hcn]
    rw [hL, hR]
    have h := choose_div_antitone (n - c) n k₁ (Nat.sub_le n c) k₂ h12 h2n
    linarith

/-- C3 witness: a concrete in-range instance of the amended monotonicity. -/
theorem pass_at_k_monotone_k_le_n_witness :
    (1 ≤ 2 ∧ 2 ≤ 3) ∧ pass_at_k 3 1 1 ≤ pass_at_k 3 1 2 :=
  ⟨⟨by norm_num, by norm_num⟩,
    pass_at_k_monotone_k_le_n 3 1 1 2 (by norm_num) (by norm_num)⟩

/-! ## C5 -/

/-- C5: comparing a report against itself with a positive threshold yields
no regressions, no improvements, and an unchanged count equal to the
number of distinct `(case_id, model)` pairs in the report. -/
theorem compare_self (R : EvalReport) (τ : ℚ) (hτ : 0 < τ) :
    (R.compare R τ).regressions = [] ∧ (R.compare R τ).improvements = [] ∧
    (R.compare R τ).unchanged = ((R.results.map keyOf).dedup).length := by
  have hδ : ∀ kk : String × String,
      bestScore R.results kk - bestScore R.results kk = 0 := fun kk => sub_self _
  have h1 : ∀ kk : String × String,
      ¬ (bestScore R.results kk - bestScore R.results kk < -τ) := by
    intro kk
    rw [hδ kk]
    linarith
  have h2 : ∀ kk : String × String,
      ¬ (τ < bestScore R.results kk - bestScore R.results kk) := by
    intro kk
    rw [hδ kk]
    linarith
  unfold EvalReport.compare
  refine ⟨?_, ?_, ?_⟩
  · have hf : (scoreKeys R.results).filter
        (fun k => decide (k ∈ scoreKeys R.results) &&
          decide (bestScore R.results k - bestScore R.results k < -τ)) = [] := by
      rw [List.filter_eq_nil_iff]
      intro a _
      simp only [Bool.and_eq_true, decide_eq_true_eq, not_and]
      intro _ h
      exact h1 a h
    simp only [hf, List.map_nil]
  · have hf : (scoreKeys R.results).filter
        (fun k => decide (k ∈ scoreKeys R.results) &&
          !decide (bestScore R.results k - bestScore R.results k < -τ) &&
          decide (τ < bestScore R.results k - bestScore R.results k)) = [] := by
      rw [List.filter_eq_nil_iff]
      intro a _
      simp only [Bool.and_eq_true, decide_eq_true_eq]
      intro hcon
      exact h2 a hcon.2
    simp only [hf, List.map_nil]
  · have hf : (scoreKeys R.results).filter
        (fun k => decide (k ∈ scoreKeys R.results) &&
          !decide (bestScore R.results k - bestScore R.results k < -τ) &&
          !decide (τ < bestScore R.results k - bestScore R.results k)) =
        scoreKeys R.results := by
      rw [List.filter_eq_self]
      intro a ha
      simp only [Bool.and_eq_true, Bool.not_eq_true', decide_eq_false_iff_not,
        decide_eq_true_eq]
      exact ⟨⟨ha, h1 a⟩, h2 a⟩
    simp only [hf]
    rfl

/-- A small report with three results over two distinct
`(case_id, model)` pairs. -/
def sampleReport : EvalReport :=
  { id := "run-1", created_at := "2024-01-01", eval_set := ⟨"set", "Set", 2⟩,
    models_evaluated := ["m"], results := [fullOkResult, compileFailResult, fullOkResult],
    aggregate := ⟨[], []⟩, duration_ms := 42 }

/-- C5 witness: the self-comparison facts on a concrete report with two
distinct pairs. -/
theorem compare_self_witness :
    (sampleReport.compare sampleReport (1 / 20)).regressions = [] ∧
    (sampleReport.compare sampleReport (1 / 20)).improvements = [] ∧
    (sampleReport.compare sampleReport (1 / 20)).unchanged = 2 := by
  have h := compare_self sampleReport (1 / 20) (by norm_num)
  exact ⟨h.1, h.2.1, h.2.2.trans (by decide)⟩

/-! ## C4 -/

lemma le_foldl_max : ∀ (l : List ℚ) (a : ℚ), a ≤ l.foldl max a := by
  intro l
  induction l with
  | nil => intro a; simp
  | cons x t ih =>
    intro a
    simp only [List.foldl_cons]
    exact le_trans (le_max_left a x) (ih (max a x))

lemma mem_le_foldl_max : ∀ (l : List ℚ) (a x : ℚ), x ∈ l → x ≤ l.foldl max a := by
  intro l
  induction l with
  | nil => intro a x hx; cases hx
  | cons y t ih =>
    intro a x hx
    simp only [List.foldl_cons]
    rcases List.mem_cons.mp hx with h | h
    · subst h
      exact le_trans (le_max_right a x) (le_foldl_max t (max a x))
    · exact ih (max a y) x h

lemma foldl_max_mem : ∀ (l : List ℚ) (a : ℚ), l.foldl max a = a ∨ l.foldl max a ∈ l := by
  intro l
  induction l with
  | nil => intro a; left; rfl
  | cons y t ih =>
    intro a
    simp only [List.foldl_cons]
    rcases ih (max a y) with h | h
    · rcases max_choice a y with hm | hm
      · left; rw [h, hm]
      · right; rw [h, hm]; exact List.mem_cons_self y t
    · right; exact List.mem_cons_of_mem y h

lemma overallOf_nonneg (r : EvalResult) : 0 ≤ overallOf r := by
  unfold overallOf Score.compute
  dsimp only
  by_cases h : r.compilation.success
  · simp only [h, if_true]
    have ht : (0 : ℚ) ≤ (match r.test_execution with
        | some t => if t.passed + t.failed = 0 then 0
            else (t.passed : ℚ) / ((t.passed : ℚ) + (t.failed : ℚ))
        | none => 0) := by
      cases r.test_execution with
      | none => norm_num
      | some t =>
        by_cases h0 : t.passed + t.failed = 0
        · simp [h0]
        · simp only [h0, if_false]
          positivity
    have hl : (0 : ℚ) ≤ (match r.clippy with
        | some c => max 0 (1 - (c.warning_count : ℚ) / 10)
        | none => 1) := by
      cases r.clippy with
      | none => norm_num
      | some c => exact le_max_left 0 _
    refine add_nonneg (add_nonneg ?_ ?_) ?_
    · norm_num
    · exact mul_nonneg (by norm_num) ht
    · exact mul_nonneg (by norm_num) hl
  · simp [h]

lemma key_mem_of_scoreKeys {rs : List EvalResult} {kk : String × String}
    (h : kk ∈ scoreKeys rs) : ∃ r ∈ rs, keyOf r = kk := by
  unfold scoreKeys at h
  rw [List.mem_dedup] at h
  exact List.mem_map.mp h

lemma bestScore_ub (rs : List EvalResult) (kk : String × String) :
    ∀ r ∈ rs, keyOf r = kk → overallOf r ≤ bestScore rs kk := by
  intro r hr hk
  unfold bestScore
  apply mem_le_foldl_max
  exact List.mem_map.mpr ⟨r, List.mem_filter.mpr ⟨hr, by simp [hk]⟩, rfl⟩

lemma bestScore_attained (rs : List EvalResult) (kk : String × String)
    (h : kk ∈ scoreKeys rs) : ∃ r ∈ rs, keyOf r = kk ∧ overallOf r = bestScore rs kk := by
  obtain ⟨r0, hr0, hk0⟩ := key_mem_of_scoreKeys h
  rcases foldl_max_mem ((rs.filter (fun r => decide (keyOf r = kk))).map overallOf) 0 with
    h0 | hmem
  · refine ⟨r0, hr0, hk0, ?_⟩
    have hle : overallOf r0 ≤ bestScore rs kk := bestScore_ub rs kk r0 hr0 hk0
    have hbs : bestScore rs kk = 0 := h0
    rw [hbs] at hle ⊢
    exact le_antisymm hle (overallOf_nonneg r0)
  · obtain ⟨r, hrf, hval⟩ := List.mem_map.mp hmem
    have hm := List.mem_filter.mp hrf
    refine ⟨r, hm.1, ?_, hval⟩
    simpa using hm.2

/-- C4: `EvalReport::compare` with a threshold `τ ≥ 0` classifies each
`(case_id, model)` pair by the difference of the best (maximum over
attempts, floored at 0) overall scores: a regression entry appears exactly
for pairs in both reports with `δ < -τ`, an improvement entry exactly for
pairs in both reports with `δ > τ`, the remaining common pairs are counted
unchanged, pairs only in the current (resp. baseline) report are counted
in `new_cases` (resp. `removed_cases`), `has_regressions` is true iff the
regression list is nonempty, and the best score of a pair is attained by
one of its attempts and bounds all of them. -/
theorem compare_classification (cur base : EvalReport) (τ : ℚ) (hτ : 0 ≤ τ) :
    (∀ cid mdl : String,
      ((⟨cid, mdl, bestScore base.results (cid, mdl), bestScore cur.results (cid, mdl),
          bestScore cur.results (cid, mdl) - bestScore base.results (cid, mdl)⟩ : Regression) ∈
            (cur.compare base τ).regressions ↔
        ((cid, mdl) ∈ scoreKeys cur.results ∧ (cid, mdl) ∈ scoreKeys base.results ∧
          bestScore cur.results (cid, mdl) - bestScore base.results (cid, mdl) < -τ))) ∧
    (∀ cid mdl : String,
      ((⟨cid, mdl, bestScore base.results (cid, mdl), bestScore cur.results (cid, mdl),
          bestScore cur.results (cid, mdl) - bestScore base.results (cid, mdl)⟩ : Improvement) ∈
            (cur.compare base τ).improvements ↔
        ((cid, mdl) ∈ scoreKeys cur.results ∧ (cid, mdl) ∈ scoreKeys base.results ∧
          τ < bestScore cur.results (cid, mdl) - bestScore base.results (cid, mdl)))) ∧
    ((cur.compare base τ).unchanged =
      ((scoreKeys cur.results).filter (fun kk => decide (kk ∈ scoreKeys base.results) &&
        decide (-τ ≤ bestScore cur.results kk - bestScore base.results kk) &&
        decide (bestScore cur.results kk - bestScore base.results kk ≤ τ))).length) ∧
    ((cur.compare base τ).new_cases =
      ((scoreKeys cur.results).filter
        (fun kk => !decide (kk ∈ scoreKeys base.results))).length) ∧
    ((cur.compare base τ).removed_cases =
      ((scoreKeys base.results).filter
        (fun kk => !decide (kk ∈ scoreKeys cur.results))).length) ∧
    ((cur.compare base τ).has_regressions = true ↔
      (cur.compare base τ).regressions ≠ []) ∧
    (∀ rs : List EvalResult, ∀ kk ∈ scoreKeys rs,
      (∃ r ∈ rs, keyOf r = kk ∧ overallOf r = bestScore rs kk) ∧
      ∀ r ∈ rs, keyOf r = kk → overallOf r ≤ bestScore rs kk) := by
  refine ⟨?_, ?_, ?_, rfl, rfl, ?_, ?_⟩
  · intro cid mdl
    unfold EvalReport.compare
    dsimp only
    constructor
    · intro hmem
      obtain ⟨kk, hkf, hfe⟩ := List.mem_map.mp hmem
      simp only [Regression.mk.injEq] at hfe
      have hkk : kk = (cid, mdl) := by
        cases kk
        simp only [Prod.mk.injEq]
        exact ⟨hfe.1, hfe.2.1⟩
      subst hkk
      have hm := List.mem_filter.mp hkf
      have hb := hm.2
      simp only [Bool.and_eq_true, decide_eq_true_eq] at hb
      exact ⟨hm.1, hb.1, hb.2⟩
    · intro ⟨hck, hbk, hlt⟩
      apply List.mem_map.mpr
      refine ⟨(cid, mdl), List.mem_filter.mpr ⟨hck, ?_⟩, rfl⟩
      simp [hbk, hlt]
  · intro cid mdl
    unfold EvalReport.compare
    dsimp only
    constructor
    · intro hmem
      obtain ⟨kk, hkf, hfe⟩ := List.mem_map.mp hmem
      simp only [Improvement.mk.injEq] at hfe
      have hkk : kk = (cid, mdl) := by
        cases kk
        simp only [Prod.mk.injEq]
        exact ⟨hfe.1, hfe.2.1⟩
      subst hkk
      have hm := List.mem_filter.mp hkf
      have hb := hm.2
      simp only [Bool.and_eq_true, decide_eq_true_eq] at hb
      exact ⟨hm.1, hb.1.1, hb.2⟩
    · intro ⟨hck, hbk, hgt⟩
      apply List.mem_map.mpr
      refine ⟨(cid, mdl), List.mem_filter.mpr ⟨hck, ?_⟩, rfl⟩
      have hnlt : ¬ (bestScore cur.results (cid, mdl) -
          bestScore base.results (cid, mdl) < -τ) := by linarith
      simp [hbk, hgt, hnlt]
  · unfold EvalReport.compare
    dsimp only
    congr 1
    apply List.filter_congr
    intro kk _
    have e1 : (!decide (bestScore cur.results kk - bestScore base.results kk < -τ)) =
        decide (-τ ≤ bestScore cur.results kk - bestScore base.results kk) := by
      rcases lt_or_ge (bestScore cur.results kk - bestScore base.results kk) (-τ) with h | h
      · simp [h, not_le.mpr h]
      · simp [not_lt.mpr h, h]
    have e2 : (!decide (τ < bestScore cur.results kk - bestScore base.results kk)) =
        decide (bestScore cur.results kk - bestScore base.results kk ≤ τ) := by
      rcases lt_or_ge τ (bestScore cur.results kk - bestScore base.results kk) with h | h
      · simp [h, not_le.mpr h]
      · simp [not_lt.mpr h, h]
    rw [e1, e2]
  · unfold RegressionReport.has_regressions
    simp [List.isEmpty_iff]
  · intro rs kk hkk
    exact ⟨bestScore_attained rs kk hkk, bestScore_ub rs kk⟩

/-- The `(ok, m)` pair failing to compile in the current run. -/
def currentFailResult : EvalResult :=
  { case_id := "ok", model := "m", provider := "p",
    generated_code := "pub fn add(", compilation := failCompile,
    test_execution := none, clippy := none,
    timing := ⟨0, 7, 0, 7⟩, token_usage := zeroUsage, attempt := 1, run_id := "run2" }

/-- A baseline report: `(ok, m)` compiles, tests and lints cleanly. -/
def sampleBaseReport : EvalReport :=
  { id := "base", created_at := "2024-01-01", eval_set := ⟨"set", "Set", 1⟩,
    models_evaluated := ["m"], results := [fullOkResult],
    aggregate := ⟨[], []⟩, duration_ms := 40 }

/-- A current report: `(ok, m)` regressed to a compile failure and
`(broken, m)` is new. -/
def sampleCurReport : EvalReport :=
  { id := "cur", created_at := "2024-01-02", eval_set := ⟨"set", "Set", 2⟩,
    models_evaluated := ["m"], results := [currentFailResult, compileFailResult],
    aggregate := ⟨[], []⟩, duration_ms := 41 }

/-- C4 witness: on concrete reports, the pair that fell from overall `1`
to overall `0` produces exactly the expected regression entry, the new
pair is counted, and `has_regressions` holds. -/
theorem compare_classification_witness :
    ((⟨"ok", "m", 1, 0, -1⟩ : Regression) ∈
      (sampleCurReport.compare sampleBaseReport (1 / 20)).regressions) ∧
    (sampleCurReport.compare sampleBaseReport (1 / 20)).new_cases = 1 ∧
    (sampleCurReport.compare sampleBaseReport (1 / 20)).has_regressions = true := by
  have h := compare_classification sampleCurReport sampleBaseReport (1 / 20) (by norm_num)
  have hbb : bestScore sampleBaseReport.results ("ok", "m") = 1 := by
    simp [bestScore, sampleBaseReport, fullOkResult, keyOf, overallOf, Score.compute,
      okCompile, okTests, okClippy]
    norm_num
  have hbc : bestScore sampleCurReport.results ("ok", "m") = 0 := by
    simp [bestScore, sampleCurReport, currentFailResult, compileFailResult, keyOf,
      overallOf, Score.compute, failCompile]
  have hmem := (h.1 "ok" "m").mpr
    ⟨by decide, by decide, by rw [hbb, hbc]; norm_num⟩
  rw [hbb, hbc] at hmem
  have h01 : (0 : ℚ) - 1 = -1 := by norm_num
  rw [h01] at hmem
  refine ⟨hmem, ?_, ?_⟩
  · exact h.2.2.2.1.trans (by decide)
  · exact (h.2.2.2.2.2.1).mpr (List.ne_nil_of_mem hmem)

/-! ## C7 -/

lemma retryGo_attempts_le (gen : Nat → Except String GenerateResponse) :
    ∀ fuel idx delay le, (retryGo gen fuel idx delay le).attempts ≤ fuel := by
  intro fuel
  induction fuel with
  | zero => intro idx delay le; simp [retryGo]
  | succ f ih =>
    intro idx delay le
    cases hg : gen idx with
    | ok r => simp [retryGo, hg]
    | error e =>
      by_cases hp : isPermanentErr e
      · simp [retryGo, hg, hp]
      · simp only [retryGo, hg, hp, Bool.false_eq_true, if_false]
        exact Nat.add_le_add_right (ih _ _ _) 1

/-- The delay the loop will use for the `j`-th sleep after entering a
retry iteration with delay `d`, attempt index `idx` pending. -/
def delayChain (gen : Nat → Except String GenerateResponse) : Nat → Nat → Nat → Nat
  | 0, _, d => d
  | j + 1, idx, d => delayChain gen j (idx + 1) (applyHint (gen idx) (min (d * 2) 60000))

lemma retryGo_sleeps_get (gen : Nat → Except String GenerateResponse) :
    ∀ fuel i δ le j, j < (retryGo gen fuel (i + 1) δ le).sleeps.length →
      (retryGo gen fuel (i + 1) δ le).sleeps[j]? = some (delayChain gen j (i + 1) δ) := by
  intro fuel
  induction fuel with
  | zero =>
    intro i δ le j hj
    simp [retryGo] at hj
  | succ f ih =>
    intro i δ le j hj
    cases hg : gen (i + 1) with
    | ok r =>
      have hs : (retryGo gen (f + 1) (i + 1) δ le).sleeps = [δ] := by
        simp [retryGo, hg]
      rw [hs] at hj ⊢
      have hj0 : j = 0 := by simp at hj; omega
      subst hj0
      simp [delayChain]
    | error e =>
      by_cases hp : isPermanentErr e
      · have hs : (retryGo gen (f + 1) (i + 1) δ le).sleeps = [δ] := by
          simp [retryGo, hg, hp]
        rw [hs] at hj ⊢
        have hj0 : j = 0 := by simp at hj; omega
        subst hj0
        simp [delayChain]
      · have hs : (retryGo gen (f + 1) (i + 1) δ le).sleeps =
            δ :: (retryGo gen f (i + 2) (applyHint (gen (i + 1)) (min (δ * 2) 60000))
              (some e)).sleeps := by
          simp only [retryGo, hg, hp, Bool.false_eq_true, if_false]
          simp [applyHint, hg]
        rw [hs] at hj ⊢
        cases j with
        | zero => simp [delayChain]
        | succ jj =>
          have hj' : jj < (retryGo gen f (i + 2)
              (applyHint (gen (i + 1)) (min (δ * 2) 60000)) (some e)).sleeps.length := by
            simp at hj
            omega
          rw [List.getElem?_cons_succ, ih (i + 1) _ (some e) jj hj']
          rfl

lemma delayChain_eq_specDelay (gen : Nat → Except String GenerateResponse) (d0 : Nat) :
    ∀ j i, delayChain gen j (i + 1) (specDelay gen d0 i) = specDelay gen d0 (i + j) := by
  intro j
  induction j with
  | zero => intro i; rfl
  | succ jj ih =>
    intro i
    have h1 : delayChain gen (jj + 1) (i + 1) (specDelay gen d0 i) =
        delayChain gen jj (i + 2) (applyHint (gen (i + 1))
          (min (specDelay gen d0 i * 2) 60000)) := rfl
    have h2 : applyHint (gen (i + 1)) (min (specDelay gen d0 i * 2) 60000) =
        specDelay gen d0 (i + 1) := rfl
    rw [h1, h2]
    have h3 := ih (i + 1)
    have h4 : i + 1 + jj = i + (jj + 1) := by omega
    rw [h4] at h3
    exact h3

lemma retryGo_permanent (gen : Nat → Except String GenerateResponse) :
    ∀ i fuel idx δ le e, i < fuel → gen (idx + i) = Except.error e →
      isPermanentErr e = true →
      (∀ j, j < i → ∃ er, gen (idx + j) = Except.error er ∧ isPermanentErr er = false) →
      (retryGo gen fuel idx δ le).attempts = i + 1 ∧
        (retryGo gen fuel idx δ le).outcome = Except.error e := by
  intro i
  induction i with
  | zero =>
    intro fuel idx δ le e hfuel hg hp _
    rcases fuel with _ | f
    · omega
    · rw [Nat.add_zero] at hg
      constructor <;> simp [retryGo, hg, hp]
  | succ ii ih =>
    intro fuel idx δ le e hfuel hg hp hprev
    rcases fuel with _ | f
    · omega
    · obtain ⟨e0, hg0, hp0⟩ := hprev 0 (Nat.succ_pos ii)
      rw [Nat.add_zero] at hg0
      have harg1 : gen (idx + 1 + ii) = Except.error e := by
        rw [show idx + 1 + ii = idx + (ii + 1) from by omega]
        exact hg
      have harg2 : ∀ j, j < ii →
          ∃ er, gen (idx + 1 + j) = Except.error er ∧ isPermanentErr er = false := by
        intro j hj
        obtain ⟨er, hge, hpe⟩ := hprev (j + 1) (by omega)
        refine ⟨er, ?_, hpe⟩
        rw [show idx + 1 + j = idx + (j + 1) from by omega]
        exact hge
      constructor
      · simp only [retryGo, hg0, hp0, Bool.false_eq_true, if_false]
        rw [(ih f (idx + 1) _ (some e0) e (by omega) harg1 hp harg2).1]
      · simp only [retryGo, hg0, hp0, Bool.false_eq_true, if_false]
        exact (ih f (idx + 1) _ (some e0) e (by omega) harg1 hp harg2).2

/-- C7 corrected counterexample: with `max_retries_per_case = 1` and a
provider that always fails transiently, the engine makes 2 generate
calls — the loop `0..=max_retries_per_case` allows one more attempt than
the claimed `max_retries_per_case`. -/
theorem retry_attempts_exceed_max_retries :
    ¬ ((generateWithRetry (fun _ => Except.error "network error: boom") 1 1000).attempts ≤ 1) := by
  decide

/-- C7 amended: generation is attempted up to `max_retries_per_case + 1`
times (one initial attempt plus up to `max_retries_per_case` retries); the
delay before the first retry is the configured delay, each later delay is
the previous one doubled and capped at 60 s, except that a rate-limited
attempt overrides the next delay with its parsed `retry_after_ms` hint;
and a permanent error (message containing `authentication` or
`model not found`) ends the task at that attempt with that error. -/
theorem retry_policy (gen : Nat → Except String GenerateResponse)
    (maxRetries initialDelay : Nat) :
    (generateWithRetry gen maxRetries initialDelay).attempts ≤ maxRetries + 1 ∧
    (∀ j, j < (generateWithRetry gen maxRetries initialDelay).sleeps.length →
      (generateWithRetry gen maxRetries initialDelay).sleeps[j]? =
        some (specDelay gen initialDelay j)) ∧
    (∀ i e, gen i = Except.error e → isPermanentErr e = true →
      (∀ j, j < i → ∃ er, gen j = Except.error er ∧ isPermanentErr er = false) →
      i ≤ maxRetries →
      (generateWithRetry gen maxRetries initialDelay).attempts = i + 1 ∧
        (generateWithRetry gen maxRetries initialDelay).outcome = Except.error e) := by
  refine ⟨retryGo_attempts_le gen (maxRetries + 1) 0 initialDelay none, ?_, ?_⟩
  · intro j hj
    unfold generateWithRetry at hj ⊢
    cases hg : gen 0 with
    | ok r =>
      exfalso
      rw [show (retryGo gen (maxRetries + 1) 0 initialDelay none).sleeps = [] by
        simp [retryGo, hg]] at hj
      simp at hj
    | error e =>
      by_cases hp : isPermanentErr e
      · exfalso
        rw [show (retryGo gen (maxRetries + 1) 0 initialDelay none).sleeps = [] by
          simp [retryGo, hg, hp]] at hj
        simp at hj
      · have hs : (retryGo gen (maxRetries + 1) 0 initialDelay none).sleeps =
            (retryGo gen maxRetries (0 + 1) (applyHint (gen 0) initialDelay)
              (some e)).sleeps := by
          simp only [retryGo, hg, hp, Bool.false_eq_true, if_false]
          simp [applyHint, hg]
        rw [hs] at hj ⊢
        rw [retryGo_sleeps_get gen maxRetries 0 (applyHint (gen 0) initialDelay)
          (some e) j hj]
        have h0 : applyHint (gen 0) initialDelay = specDelay gen initialDelay 0 := rfl
        rw [h0, delayChain_eq_specDelay gen initialDelay j 0, Nat.zero_add]
  · intro i e hg hp hprev hle
    unfold generateWithRetry
    exact retryGo_permanent gen i (maxRetries + 1) 0 initialDelay none e (by omega)
      (by rw [Nat.zero_add]; exact hg) hp
      (fun j hj => by rw [Nat.zero_add]; exact hprev j hj)

/-- The provider-outcome sequence for the C7 witness: a rate limit with a
5-second hint, then a network error, then a permanent failure. -/
def retryOutcomes : Nat → Except String GenerateResponse := fun i =>
  if i = 0 then Except.error "rate limited, retry after 5000ms"
  else if i = 1 then Except.error "network error: connection reset"
  else Except.error "authentication failed: bad key"

/-- C7 witness: on the concrete outcome sequence the loop makes exactly
three calls, ends with the permanent error, stays within the attempt
bound, and sleeps the hinted 5000 ms then the doubled 10000 ms. -/
theorem retry_policy_witness :
    (generateWithRetry retryOutcomes 5 1000).attempts = 3 ∧
    (generateWithRetry retryOutcomes 5 1000).outcome =
      Except.error "authentication failed: bad key" ∧
    (generateWithRetry retryOutcomes 5 1000).attempts ≤ 6 ∧
    (generateWithRetry retryOutcomes 5 1000).sleeps = [5000, 10000] ∧
    specDelay retryOutcomes 1000 0 = 5000 ∧ specDelay retryOutcomes 1000 1 = 10000 := by
  have h := retry_policy retryOutcomes 5 1000
  have habort := h.2.2 2 "authentication failed: bad key" (by decide) (by decide)
    (fun j hj => by
      match j, hj with
      | 0, _ => exact ⟨"rate limited, retry after 5000ms", by decide, by decide⟩
      | 1, _ => exact ⟨"network error: connection reset", by decide, by decide⟩)
    (by omega)
  exact ⟨habort.1, habort.2, h.1, by decide, by decide, by decide⟩

/-! ## C8 -/

/-- Each line prefixed by a newline, concatenated. -/
def addNl (ls : List (List Char)) : List Char := (ls.map (fun l => '\n' :: l)).flatten

lemma joinSep_nl_cons : ∀ (t : List (List Char)) (h : List Char),
    joinSep ['\n'] (h :: t) = h ++ addNl t := by
  intro t
  induction t with
  | nil => intro h; simp [joinSep, addNl]
  | cons x xs ih =>
    intro h
    show h ++ ['\n'] ++ joinSep ['\n'] (x :: xs) = h ++ addNl (x :: xs)
    rw [ih x]
    simp [addNl, List.append_assoc]

lemma foldl_pushLine_ne : ∀ (ls : List (List Char)) (cur : List Char), cur ≠ [] →
    List.foldl pushLine cur ls = cur ++ addNl ls := by
  intro ls
  induction ls with
  | nil => intro cur _; simp [addNl]
  | cons l t ih =>
    intro cur h
    simp only [List.foldl_cons]
    have hp : pushLine cur l = cur ++ '\n' :: l := by
      unfold pushLine
      rw [if_neg]
      simp [h]
    rw [hp, ih (cur ++ '\n' :: l) (by simp)]
    simp [addNl, List.append_assoc]

lemma foldl_pushLine_eq_join : ∀ ls : List (List Char),
    List.foldl pushLine [] ls = joinSep ['\n'] (ls.dropWhile List.isEmpty) := by
  intro ls
  induction ls with
  | nil => rfl
  | cons l t ih =>
    by_cases h : l.isEmpty
    · have hl : l = [] := by
        cases l with
        | nil => rfl
        | cons a b => simp [List.isEmpty] at h
      subst hl
      simp only [List.foldl_cons]
      rw [show pushLine [] [] = [] from rfl]
      rw [List.dropWhile_cons]
      simp only [List.isEmpty_nil, if_true]
      exact ih
    · have hl : l ≠ [] := by
        cases l with
        | nil => simp [List.isEmpty] at h
        | cons a b => simp
      simp only [List.foldl_cons]
      rw [show pushLine [] l = l from by simp [pushLine]]
      rw [foldl_pushLine_ne t l hl]
      rw [List.dropWhile_cons]
      rw [if_neg (by simp [h])]
      rw [joinSep_nl_cons]

lemma takeBlock_not_closed : ∀ ls : List (List Char),
    (takeBlock ls).2.2 = false → (takeBlock ls).2.1 = [] := by
  intro ls
  induction ls with
  | nil => intro _; rfl
  | cons l rest ih =>
    intro h
    by_cases hc : trimL l == fencePre
    · simp [takeBlock, hc] at h
    · simp only [takeBlock, hc, Bool.false_eq_true, if_false] at h ⊢
      exact ih h

lemma tagRust_ne_empty {t : List Char} (h : tagRust t = true) : t.isEmpty = false := by
  unfold tagRust at h
  rw [Bool.or_eq_true] at h
  rcases h with h1 | h1 <;>
  · have := eq_of_beq h1
    subst this
    rfl

/-- Inside a block, the loop consumes lines up to the closing fence (or
the end of input), accumulates them onto the current block, and commits
the block: unconditionally at a closing fence, only-if-nonempty at the
end of input. -/
lemma extGo_in (isR isG : Bool) : ∀ (ls : List (List Char)) (cur : List Char)
    (rb gb : List (List Char)),
    extGo ls true isR isG cur rb gb =
      (if (takeBlock ls).2.2 then
        extGo (takeBlock ls).2.1 false isR isG []
          (if isR then rb ++ [List.foldl pushLine cur (takeBlock ls).1] else rb)
          (if !isR && isG then gb ++ [List.foldl pushLine cur (takeBlock ls).1] else gb)
      else
        ((if (!(List.foldl pushLine cur (takeBlock ls).1).isEmpty) && isR
          then rb ++ [List.foldl pushLine cur (takeBlock ls).1] else rb),
         (if (!(List.foldl pushLine cur (takeBlock ls).1).isEmpty) && !isR && isG
          then gb ++ [List.foldl pushLine cur (takeBlock ls).1] else gb))) := by
  intro ls
  induction ls with
  | nil =>
    intro cur rb gb
    simp only [extGo, takeBlock, Bool.false_eq_true, if_false, List.foldl_nil,
      Bool.true_and]
    cases hc : cur.isEmpty <;> cases isR <;> cases isG <;> simp [hc]
  | cons l ls' ih =>
    intro cur rb gb
    by_cases hcl : (trimL l == fencePre) = true
    · have hstep : extGo (l :: ls') true isR isG cur rb gb =
          (if isR then extGo ls' false isR isG [] (rb ++ [cur]) gb
           else if isG then extGo ls' false isR isG [] rb (gb ++ [cur])
           else extGo ls' false isR isG [] rb gb) := by
        simp only [extGo, Bool.not_true, Bool.false_and, Bool.false_eq_true, if_false,
          Bool.true_and, hcl, if_true]
      rw [hstep]
      simp only [takeBlock, hcl, if_true, List.foldl_nil]
      cases isR <;> cases isG <;> simp
    · have hstep : extGo (l :: ls') true isR isG cur rb gb =
          extGo ls' true isR isG (pushLine cur l) rb gb := by
        simp only [extGo, Bool.not_true, Bool.false_and, Bool.false_eq_true, if_false,
          Bool.true_and, hcl, if_true]
      rw [hstep, ih (pushLine cur l) rb gb]
      simp only [takeBlock, hcl, Bool.false_eq_true, if_false, List.foldl_cons]

/-- Outside a block, the loop's final buckets are the committed blocks of
the remaining lines, appended to the buckets so far. -/
lemma extGo_out : ∀ N : Nat, ∀ ls : List (List Char), ls.length ≤ N →
    ∀ (isR isG : Bool) (cur : List Char) (rb gb : List (List Char)),
      extGo ls false isR isG cur rb gb = (rb ++ amdR ls, gb ++ amdG ls) := by
  intro N
  induction N with
  | zero =>
    intro ls h
    have hnil : ls = [] := List.length_eq_zero.mp (Nat.le_zero.mp h)
    subst hnil
    intro isR isG cur rb gb
    simp [extGo, amdR, amdG, amdBlocks, specBlocks, specBlocksF]
  | succ n ih =>
    intro ls h isR isG cur rb gb
    cases ls with
    | nil => simp [extGo, amdR, amdG, amdBlocks, specBlocks, specBlocksF]
    | cons l rest =>
      have hrest : rest.length ≤ n := by
        simp only [List.length_cons] at h
        omega
      by_cases hf : (fencePre.isPrefixOf (trimL l)) = true
      · have hstep : extGo (l :: rest) false isR isG cur rb gb =
            extGo rest true (tagRust (tagOfLine (trimL l)))
              (tagOfLine (trimL l)).isEmpty [] rb gb := by
          simp only [extGo, Bool.not_false, Bool.true_and, hf, if_true]
        rw [hstep, extGo_in (tagRust (tagOfLine (trimL l))) (tagOfLine (trimL l)).isEmpty
          rest [] rb gb]
        rw [foldl_pushLine_eq_join]
        have hspec : amdBlocks (l :: rest) =
            (if ((takeBlock rest).2.2 ||
                !(joinSep ['\n'] ((takeBlock rest).1.dropWhile List.isEmpty)).isEmpty) then
              (tagOfLine (trimL l),
                joinSep ['\n'] ((takeBlock rest).1.dropWhile List.isEmpty)) ::
                amdBlocks (takeBlock rest).2.1
             else amdBlocks (takeBlock rest).2.1) := by
          unfold amdBlocks
          rw [specBlocks_fence rest hf, List.filterMap_cons]
          by_cases hcm : ((takeBlock rest).2.2 ||
              !(joinSep ['\n'] ((takeBlock rest).1.dropWhile List.isEmpty)).isEmpty) = true
          · simp only [hcm, if_true]
          · have hcm' : ((takeBlock rest).2.2 ||
                !(joinSep ['\n'] ((takeBlock rest).1.dropWhile List.isEmpty)).isEmpty) = false := by
              revert hcm
              cases ((takeBlock rest).2.2 ||
                !(joinSep ['\n'] ((takeBlock rest).1.dropWhile List.isEmpty)).isEmpty) <;> simp
            simp only [hcm', Bool.false_eq_true, if_false]
        cases hcl : (takeBlock rest).2.2 with
        | false =>
          have hrem : (takeBlock rest).2.1 = [] := takeBlock_not_closed rest hcl
          rw [hcl] at hspec
          simp only [Bool.false_eq_true, if_false, Bool.false_or] at hspec ⊢
          rw [hrem] at hspec
          have hnil : amdBlocks ([] : List (List Char)) = [] := rfl
          rw [hnil] at hspec
          unfold amdR amdG
          rw [hspec]
          cases hce : (joinSep ['\n'] ((takeBlock rest).1.dropWhile List.isEmpty)).isEmpty with
          | true =>
            simp only [hce, Bool.not_true, Bool.false_eq_true, if_false, Bool.and_false,
              Bool.false_and]
            simp
          | false =>
            simp only [hce, Bool.not_false, Bool.true_and, if_true]
            cases htr : tagRust (tagOfLine (trimL l)) with
            | true =>
              have hte := tagRust_ne_empty htr
              simp [htr, hte]
            | false =>
              cases hte : (tagOfLine (trimL l)).isEmpty with
              | true => simp [htr, hte]
              | false => simp [htr, hte]
        | true =>
          rw [hcl] at hspec
          simp only [Bool.true_or, if_true] at hspec ⊢
          have hlen : (takeBlock rest).2.1.length ≤ n :=
            le_trans (takeBlock_rem_length rest) hrest
          rw [ih (takeBlock rest).2.1 hlen (tagRust (tagOfLine (trimL l)))
            (tagOfLine (trimL l)).isEmpty [] _ _]
          unfold amdR amdG
          rw [hspec]
          cases htr : tagRust (tagOfLine (trimL l)) with
          | true =>
            have hte := tagRust_ne_empty htr
            simp [htr, hte]
          | false =>
            cases hte : (tagOfLine (trimL l)).isEmpty with
            | true => simp [htr, hte]
            | false => simp [htr, hte]
      · have hf' : fencePre.isPrefixOf (trimL l) = false := by
          revert hf
          cases fencePre.isPrefixOf (trimL l) <;> simp
        have hstep : extGo (l :: rest) false isR isG cur rb gb =
            extGo rest false isR isG cur rb gb := by
          simp only [extGo, Bool.not_false, Bool.true_and, hf', Bool.false_eq_true, if_false,
            Bool.false_and]
        have hspec : amdBlocks (l :: rest) = amdBlocks rest := by
          unfold amdBlocks
          rw [specBlocks_other rest hf]
        rw [hstep, ih rest hrest isR isG cur rb gb]
        unfold amdR amdG
        rw [hspec]

/-- C8 counterexample: the extractor and the claim as literally stated
disagree.  On a single unclosed `rust`-tagged fence with no content
lines, the extractor returns the input verbatim while the literal claim
(unclosed trailing block treated as closed) yields the empty
concatenation; and on a closed `rust` block whose first content line is
empty, the extractor drops the leading empty line while the literal
claim keeps it. -/
theorem extract_unclosed_empty_fence_differs :
    (extract_code_from_markdown "```rust" = "```rust" ∧
      String.mk (extractSpecLit "```rust".toList) = "" ∧
      extract_code_from_markdown "```rust" ≠
        String.mk (extractSpecLit "```rust".toList)) ∧
    (extract_code_from_markdown "```rust\n\nfoo\n```" = "foo" ∧
      String.mk (extractSpecLit "```rust\n\nfoo\n```".toList) = "\nfoo" ∧
      extract_code_from_markdown "```rust\n\nfoo\n```" ≠
        String.mk (extractSpecLit "```rust\n\nfoo\n```".toList)) := by
  refine ⟨⟨by decide, by decide, by decide⟩, ⟨by decide, by decide, by decide⟩⟩

/-- C8 amended: the extractor prefers the target-tagged blocks, then the
untagged blocks, then the verbatim input, with blocks committed by a
closing fence or — when nonempty after dropping leading empty lines — by
the end of input, and each block's content being its remaining lines
joined by newlines (`extractSpecAmd` spells this out). -/
theorem extract_code_eq_spec (s : String) :
    extract_code_from_markdown s = String.mk (extractSpecAmd s.toList) := by
  unfold extract_code_from_markdown extractCore extractSpecAmd
  rw [extGo_out (rustLines s.toList).length (rustLines s.toList) (le_refl _)
    false false [] [] []]
  simp only [List.nil_append]

/-- C8 witness: the amended description and the extractor agree on a
concrete response, whose single tagged block they both extract. -/
theorem extract_code_eq_spec_witness :
    extract_code_from_markdown "Some prose\n```rust\nfn f() {}\n```\ntrailing" =
      String.mk (extractSpecAmd "Some prose\n```rust\nfn f() {}\n```\ntrailing".toList) ∧
    extract_code_from_markdown "Some prose\n```rust\nfn f() {}\n```\ntrailing" =
      "fn f() {}" :=
  ⟨extract_code_eq_spec _, by decide⟩

end Forgetest
